import Mathlib

/-!
PTMP client codec (gopkt/ptmp.go): a shallow embedding.

Go strings and byte slices are lists of bytes, `len` is `List.length`.
Go `int` values are integers; the places where the 64-bit range matters
(`strconv.Atoi` rejecting out-of-range text) carry the range check explicitly.
A receive operation is first given as a function of the bytes its reader
delivers: the list of bytes still to be delivered, followed by end of stream,
so that a read fails only with io.EOF; it returns its result together with
the bytes its reader has not delivered.  `log.Fatal` (process exit) is the
`Except.error` outcome.  The dynamic values of `interface{}` are strings, ints
and bools.

ReceiveIPCCallResponse is also given with its connection, on which the bytes
arrive in segments: it reads through a bufio.Reader of its own, which takes
whole segments (as far as they fit its buffer) from the connection and is
dropped on return, so that bytes which it has taken and not delivered are lost.
-/

namespace Gopkt

/-- One byte of a Go string. -/
abbrev Byte := Fin 256

/-- The field terminator `\x00`. -/
def NUL : Byte := 0

/-- The bytes of an ASCII string literal of the source. -/
def ascii (s : String) : List Byte := s.toList.map (fun c => Fin.ofNat c.toNat)

/-! ## Library functions used by the source (fmt, strconv, strings, bufio) -/

/-- The ASCII digit of `d % 10`. -/
def digit (d : Nat) : Byte := ⟨48 + d % 10, by omega⟩

/-- Decimal digits of `n`, most significant first, prepended to `acc`;
the first argument bounds the number of digits. -/
def natDigits : Nat → Nat → List Byte → List Byte
  | 0, _, acc => acc
  | fuel + 1, n, acc =>
    if n < 10 then digit n :: acc else natDigits fuel (n / 10) (digit n :: acc)

/-- Decimal text of a natural number. -/
def fmtNat (n : Nat) : List Byte := natDigits (n + 1) n []

/-- The verb `%d` of fmt.Sprintf on an int. -/
def fmtInt (i : Int) : List Byte :=
  if i < 0 then 45 :: fmtNat i.natAbs else fmtNat i.natAbs

/-- Bounds of the 64-bit Go int. -/
def inIntRange (i : Int) : Prop := -(2 : Int) ^ 63 ≤ i ∧ i < (2 : Int) ^ 63

instance (i : Int) : Decidable (inIntRange i) := by
  unfold inIntRange; exact inferInstance

/-- Value of a run of ASCII digits read left to right from accumulator `acc`;
`none` when a byte is not a digit. -/
def parseDigits : List Byte → Nat → Option Nat
  | [], acc => some acc
  | b :: bs, acc =>
    if 48 ≤ b.val ∧ b.val ≤ 57 then parseDigits bs (acc * 10 + (b.val - 48)) else none

/-- The function strconv.Atoi: an optional sign, at least one digit, digits
only, and a value that fits the 64-bit int; anything else is an error. -/
def Atoi (s : List Byte) : Option Int :=
  match s with
  | [] => none
  | c :: t =>
    if c = 45 then
      match t with
      | [] => none
      | _ :: _ =>
        match parseDigits t 0 with
        | some n => if n ≤ 2 ^ 63 then some (-(n : Int)) else none
        | none => none
    else if c = 43 then
      match t with
      | [] => none
      | _ :: _ =>
        match parseDigits t 0 with
        | some n => if n < 2 ^ 63 then some (n : Int) else none
        | none => none
    else
      match parseDigits s 0 with
      | some n => if n < 2 ^ 63 then some (n : Int) else none
      | none => none

/-- The function strconv.ParseBool. -/
def ParseBool (s : List Byte) : Option Bool :=
  if s = ascii "1" ∨ s = ascii "t" ∨ s = ascii "T" ∨ s = ascii "TRUE" ∨ s = ascii "true"
      ∨ s = ascii "True" then some true
  else if s = ascii "0" ∨ s = ascii "f" ∨ s = ascii "F" ∨ s = ascii "FALSE"
      ∨ s = ascii "false" ∨ s = ascii "False" then some false
  else none

/-- The function strings.Split with a one-byte separator: the pieces between
the separators, one more than the number of separators. -/
def Split (sep : Byte) : List Byte → List (List Byte)
  | [] => [[]]
  | b :: bs =>
    if b = sep then [] :: Split sep bs
    else
      match Split sep bs with
      | [] => [[b]]
      | p :: ps => (b :: p) :: ps

/-- The method bufio.Reader.ReadString: the bytes up to and including the first
delimiter, whether the stream ended first (io.EOF), and the bytes left. -/
def ReadString (delim : Byte) : List Byte → List Byte × Bool × List Byte
  | [] => ([], true, [])
  | b :: bs =>
    if b = delim then ([b], false, bs)
    else
      let r := ReadString delim bs
      (b :: r.1, r.2.1, r.2.2)

/-! ## Constants of the source -/

def PTMP_IDENTIFIER : List Byte := ascii "PTMP"
def PTMP_VERSION : Int := 1

def BYTE : Int := 1
def BOOL : Int := 2
def SHORT : Int := 3
def INT : Int := 4
def LONG : Int := 5
def FLOAT : Int := 6
def DOUBLE : Int := 7
def STRING : Int := 8
def QSTRING : Int := 9
def IP_ADDRESS : Int := 10
def IPV6_ADDRESS : Int := 11
def MAC_ADDRESS : Int := 12
def UUID : Int := 13
def PAIR : Int := 14
def VECTOR : Int := 15
def DATA : Int := 16

def PTMP_TYPE_NEGOTIATION_REQUEST : Int := 0
def PTMP_TYPE_NEGOTIATION_RESPONSE : Int := 1
def PTMP_TYPE_AUTHENTICATION_REQUEST : Int := 2
def PTMP_TYPE_AUTHENTICATION_CHALLENGE : Int := 3
def PTMP_TYPE_AUTHENTICATION_RESPONSE : Int := 4
def PTMP_TYPE_AUTHENTICATION_STATUS : Int := 5
def PTMP_TYPE_KEEP_ALIVE : Int := 6
def PTMP_TYPE_DISCONNECT : Int := 7
def PTMP_TYPE_COMMUNICATION : Int := 8

/-- The marker field text of the call path and of the end of the arguments: space, zero, space. -/
def marker : List Byte := [32, 48, 32]

/-! ## Field readers -/

/-- Ways in which the program stops through log.Fatal: a failed read, a field
that does not parse, a type tag without decoder, a failed write; `fuel` is
the recursion budget of the decode loop running out, which is not a behaviour
of the program. -/
inductive Fault where
  | read
  | parse
  | unsupported
  | write
  | fuel
  deriving DecidableEq, Repr

deriving instance DecidableEq for Except

/-- The function readStr: one field, terminator stripped; fatal when the
stream ends before a terminator. -/
def readStr (s : List Byte) : Except Fault (List Byte × List Byte) :=
  let r := ReadString NUL s
  if r.2.1 then .error .read else .ok (r.1.dropLast, r.2.2)

/-- The function readInt: one field parsed by Atoi; fatal on end of stream and
on a parse error. -/
def readInt (s : List Byte) : Except Fault (Int × List Byte) :=
  let r := ReadString NUL s
  if r.2.1 then .error .read
  else
    match Atoi r.1.dropLast with
    | none => .error .parse
    | some value => .ok (value, r.2.2)

/-- The function readBool: an empty field is false, otherwise ParseBool;
fatal on end of stream and on a parse error. -/
def readBool (s : List Byte) : Except Fault (Bool × List Byte) :=
  let r := ReadString NUL s
  if r.2.1 then .error .read
  else if r.1.length < 2 then .ok (false, r.2.2)
  else
    match ParseBool r.1.dropLast with
    | none => .error .parse
    | some value => .ok (value, r.2.2)

/-! ## Negotiation -/

structure PtmpNegotiationInfo where
  Identifier : List Byte
  Version : Int
  AppId : List Byte
  Encoding : Int
  Encryption : Int
  Compression : Int
  Authentication : Int
  Timestamp : List Byte
  KeepAlivePeriod : Int
  Reserved : List Byte
  deriving DecidableEq, Repr

/-- The text built by the Sprintf call of SendNegotiationRequest. -/
def negotiationString (info : PtmpNegotiationInfo) : List Byte :=
  info.Identifier ++ [NUL] ++ fmtInt info.Version ++ [NUL]
    ++ [123] ++ info.AppId ++ [125] ++ [NUL]
    ++ fmtInt info.Encoding ++ [NUL] ++ fmtInt info.Encryption ++ [NUL]
    ++ fmtInt info.Compression ++ [NUL] ++ fmtInt info.Authentication ++ [NUL]
    ++ info.Timestamp ++ [NUL] ++ fmtInt info.KeepAlivePeriod ++ [NUL]
    ++ info.Reserved ++ [NUL]

/-- The function SendNegotiationRequest: the bytes written to the connection. -/
def SendNegotiationRequest (info : PtmpNegotiationInfo) : List Byte :=
  let encodedValue := negotiationString info ++ [NUL]
  let msgType := fmtInt PTMP_TYPE_NEGOTIATION_REQUEST ++ [NUL]
  let msgLen := fmtInt ((msgType.length : Int) + (encodedValue.length : Int)) ++ [NUL]
  let request := msgLen ++ msgType
  request ++ encodedValue

/-- The function ReceiveNegotiationResponse: the decoded info and the bytes
its reader has not delivered. -/
def ReceiveNegotiationResponse (s : List Byte) :
    Except Fault (PtmpNegotiationInfo × List Byte) := do
  let (_msgType, s) ← readInt s
  let (_msgLen, s) ← readInt s
  let (identifier, s) ← readStr s
  let (version, s) ← readInt s
  let (appId, s) ← readStr s
  let (encoding, s) ← readInt s
  let (encryption, s) ← readInt s
  let (compression, s) ← readInt s
  let (authentication, s) ← readInt s
  let (timestamp, s) ← readStr s
  let (keepAlive, s) ← readInt s
  let (reserved, s) ← readStr s
  return ({ Identifier := identifier, Version := version, AppId := appId,
            Encoding := encoding, Encryption := encryption, Compression := compression,
            Authentication := authentication, Timestamp := timestamp,
            KeepAlivePeriod := keepAlive, Reserved := reserved }, s)

/-! ## Authentication and disconnect -/

structure PtmpAuthenticationRequestInfo where
  Username : List Byte
  deriving DecidableEq, Repr

/-- The function SendAuthenticationRequest: the bytes written. -/
def SendAuthenticationRequest (info : PtmpAuthenticationRequestInfo) : List Byte :=
  let encodedValue := info.Username ++ [NUL]
  let msgType := fmtInt PTMP_TYPE_AUTHENTICATION_REQUEST ++ [NUL]
  let msgLen := fmtInt ((msgType.length : Int) + (encodedValue.length : Int)) ++ [NUL]
  let request := msgLen ++ msgType
  request ++ encodedValue

structure PtmpAuthenticationChallengeInfo where
  Challenge : List Byte
  deriving DecidableEq, Repr

/-- The function ReceiveAuthenticationChallenge. -/
def ReceiveAuthenticationChallenge (s : List Byte) :
    Except Fault (PtmpAuthenticationChallengeInfo × List Byte) := do
  let (_msgLen, s) ← readInt s
  let (_msgType, s) ← readInt s
  let (challenge, s) ← readStr s
  return ({ Challenge := challenge }, s)

structure PtmpAuthenticationResponseInfo where
  Username : List Byte
  Digest : List Byte
  Custom : List Byte
  deriving DecidableEq, Repr

/-- The function SendAuthenticationResponse: the bytes written. -/
def SendAuthenticationResponse (info : PtmpAuthenticationResponseInfo) : List Byte :=
  let encodedValue := info.Username ++ [NUL] ++ info.Digest ++ [NUL] ++ info.Custom ++ [NUL]
  let msgType := fmtInt PTMP_TYPE_AUTHENTICATION_RESPONSE ++ [NUL]
  let msgLen := fmtInt ((msgType.length : Int) + (encodedValue.length : Int)) ++ [NUL]
  let request := msgLen ++ msgType
  request ++ encodedValue

structure PtmpAuthenticationStatusInfo where
  Status : Bool
  deriving DecidableEq, Repr

/-- The function ReceiveAuthenticationStatus. -/
def ReceiveAuthenticationStatus (s : List Byte) :
    Except Fault (PtmpAuthenticationStatusInfo × List Byte) := do
  let (_msgLen, s) ← readInt s
  let (_msgType, s) ← readInt s
  let (status, s) ← readBool s
  return ({ Status := status }, s)

/-- The function Disconnect: the bytes written before the connection is closed. -/
def Disconnect (reason : List Byte) : List Byte :=
  let encodedValue := reason ++ [NUL]
  let msgType := fmtInt PTMP_TYPE_DISCONNECT ++ [NUL]
  let msgLen := fmtInt ((msgType.length : Int) + (encodedValue.length : Int)) ++ [NUL]
  let request := msgLen ++ msgType
  request ++ encodedValue

/-! ## IPC calls -/

/-- The dynamic values an `interface{}` argument holds here: a string, an int
or a bool. -/
inductive GoValue where
  | str (s : List Byte)
  | int (i : Int)
  | bool (b : Bool)
  deriving DecidableEq, Repr

/-- The verb `%v` of fmt.Sprintf. -/
def fmtV : GoValue → List Byte
  | .str s => s
  | .int i => fmtInt i
  | .bool true => ascii "true"
  | .bool false => ascii "false"

structure PtmpIpcData where
  TypeId : Int
  Value : GoValue
  deriving DecidableEq, Repr

structure PtmpIpcCallInfo where
  CallId : Int
  CallName : List Byte
  Args : List PtmpIpcData
  deriving DecidableEq, Repr

/-- The loop of SendIPCCall over the parts of the call name: `n` is
`len(callNameParts)`, `i` the index of the next part, `acc` the text so far. -/
def callNameLoop (n : Int) : Nat → List (List Byte) → List Byte → List Byte
  | _, [], acc => acc
  | i, part :: rest, acc =>
    let acc1 := acc ++ (part ++ [NUL])
    let acc2 := if (i : Int) < n - 1 then acc1 ++ (marker ++ [NUL]) else acc1
    callNameLoop n (i + 1) rest acc2

/-- The loop of SendIPCCall over the arguments. -/
def argsLoop : List PtmpIpcData → List Byte → List Byte
  | [], acc => acc
  | arg :: rest, acc =>
    argsLoop rest (acc ++ (fmtInt arg.TypeId ++ [NUL] ++ fmtV arg.Value ++ [NUL]))

/-- The text `ipCallStr` that SendIPCCall builds: the body of the frame. -/
def ipCallStr (info : PtmpIpcCallInfo) : List Byte :=
  let s0 := fmtInt info.CallId ++ [NUL]
  let callNameParts := Split 46 info.CallName
  let s1 := callNameLoop (callNameParts.length : Int) 0 callNameParts s0
  let s2 := argsLoop info.Args s1
  s2 ++ (marker ++ [NUL])

/-- The function SendIPCCall: the bytes written. -/
def SendIPCCall (info : PtmpIpcCallInfo) : List Byte :=
  let encodedValue := ipCallStr info
  let msgType := fmtInt 100 ++ [NUL]
  let msgLen := fmtInt ((msgType.length : Int) + (encodedValue.length : Int)) ++ [NUL]
  let request := msgLen ++ msgType
  request ++ encodedValue

structure PtmpIpcCallResponseInfo where
  CallId : Int
  Rets : List PtmpIpcData
  deriving DecidableEq, Repr

/-- The decode loop of ReceiveIPCCallResponse.  The state is the counter
`currLen`, the returns so far and the unread bytes; the first argument bounds
the number of iterations. -/
def recvLoop (msgLen : Int) :
    Nat → Int → List PtmpIpcData → List Byte → Except Fault (List PtmpIpcData × List Byte)
  | 0, _, _, _ => .error .fuel
  | fuel + 1, currLen, rets, s =>
    if currLen ≥ msgLen then .ok (rets, s)
    else
      let r := ReadString NUL s
      let typeId := r.1
      if r.2.1 then .ok (rets, r.2.2)
      else
        match Atoi typeId.dropLast with
        | none => .error .parse
        | some typeIdInt =>
          if typeIdInt = BYTE ∨ typeIdInt = BOOL ∨ typeIdInt = SHORT ∨ typeIdInt = INT
              ∨ typeIdInt = LONG ∨ typeIdInt = FLOAT ∨ typeIdInt = DOUBLE then
            recvLoop msgLen fuel currLen rets r.2.2
          else if typeIdInt = STRING ∨ typeIdInt = QSTRING ∨ typeIdInt = IP_ADDRESS
              ∨ typeIdInt = IPV6_ADDRESS ∨ typeIdInt = MAC_ADDRESS ∨ typeIdInt = UUID then
            let v := ReadString NUL r.2.2
            let value := v.1
            if v.2.1 then .error .read
            else
              let valueStr := value.dropLast
              recvLoop msgLen fuel (currLen + (typeId.length : Int) + (value.length : Int))
                (rets ++ [{ TypeId := typeIdInt, Value := .str valueStr }]) v.2.2
          else if typeIdInt = VECTOR then
            match readInt r.2.2 with
            | .error e => .error e
            | .ok (vectorLen, s2) =>
              let currLen1 :=
                currLen + (typeId.length : Int) + ((fmtInt vectorLen ++ [NUL]).length : Int)
              match readInt s2 with
              | .error e => .error e
              | .ok (vectorDataType, s3) =>
                recvLoop msgLen fuel
                  (currLen1 + ((fmtInt vectorDataType ++ [NUL]).length : Int)) rets s3
          else if typeIdInt = PAIR ∨ typeIdInt = DATA then .error .unsupported
          else recvLoop msgLen fuel currLen rets r.2.2

/-- The function ReceiveIPCCallResponse: the decoded response and the bytes
its reader has not delivered.  Each iteration of the loop that goes on reads at
least one byte, so the number of these bytes plus one bounds the iterations. -/
def ReceiveIPCCallResponse (s : List Byte) :
    Except Fault (PtmpIpcCallResponseInfo × List Byte) :=
  match readInt s with
  | .error e => .error e
  | .ok (msgLen, s1) =>
    match readInt s1 with
    | .error e => .error e
    | .ok (msgType, s2) =>
      match readInt s2 with
      | .error e => .error e
      | .ok (callId, s3) =>
        let currLen : Int :=
          ((fmtInt msgType ++ [NUL]).length : Int) + ((fmtInt callId ++ [NUL]).length : Int)
        match recvLoop msgLen (s3.length + 1) currLen [] s3 with
        | .error e => .error e
        | .ok (rets, rest) => .ok ({ CallId := callId, Rets := rets }, rest)

/-! ## Vocabulary of the properties -/

/-- The bytes of a sequence of fields, each followed by its terminator. -/
def joinFields : List (List Byte) → List Byte
  | [] => []
  | f :: fs => f ++ [NUL] ++ joinFields fs

/-- The sequence of terminated fields of a body: the pieces between the
terminators, without the piece after the last terminator. -/
def fieldsOf (body : List Byte) : List (List Byte) := (Split NUL body).dropLast

/-- The fields of the arguments of a call: for each one its type id in
decimal, then its value as text. -/
def argFields : List PtmpIpcData → List (List Byte)
  | [] => []
  | a :: rest => fmtInt a.TypeId :: fmtV a.Value :: argFields rest

/-- The segments of a call name, each followed by a marker field. -/
def markedSegments : List (List Byte) → List (List Byte)
  | [] => []
  | seg :: rest => seg :: marker :: markedSegments rest

/-- The frame layout for type code `T` and body `body`: the declared length in
decimal, the type code in decimal, each with its terminator, then the body;
the declared length is the byte length of the type field plus the body. -/
def declaresLength (written : List Byte) (T : Int) (body : List Byte) : Prop :=
  written = fmtInt (((fmtInt T).length : Int) + 1 + (body.length : Int)) ++ [NUL]
    ++ fmtInt T ++ [NUL] ++ body

/-- The negotiation info of the handshake example, with application id `X`. -/
def sampleNegotiation : PtmpNegotiationInfo :=
  { Identifier := PTMP_IDENTIFIER, Version := PTMP_VERSION, AppId := ascii "X",
    Encoding := 1, Encryption := 1, Compression := 1, Authentication := 1,
    Timestamp := ascii "20060102150405", KeepAlivePeriod := 60,
    Reserved := ascii ":PTVER8.0.0.0000" }

/-- The tags of the scalars that are kept as text: STRING to UUID. -/
def stringLike (tag : Int) : Prop :=
  tag = STRING ∨ tag = QSTRING ∨ tag = IP_ADDRESS ∨ tag = IPV6_ADDRESS
    ∨ tag = MAC_ADDRESS ∨ tag = UUID

instance (tag : Int) : Decidable (stringLike tag) := by
  unfold stringLike; exact inferInstance

/-- A value that is a string without NUL byte. -/
def isText : GoValue → Bool
  | .str v => decide (NUL ∉ v)
  | _ => false

/-- A return with a string-like tag and a NUL-free string value. -/
def textReturn (r : PtmpIpcData) : Prop := stringLike r.TypeId ∧ isText r.Value = true

instance (r : PtmpIpcData) : Decidable (textReturn r) := by
  unfold textReturn; exact inferInstance

/-- The wire form of a list of returns: for each one the field of its type tag
and the field of its value, as SendIPCCall writes an argument. -/
def encodeReturns (rs : List PtmpIpcData) : List Byte := joinFields (argFields rs)

/-- The value of the counter `currLen` before the first return: the byte
lengths of the type field and of the call id field. -/
def headerLen (T c : Int) : Int :=
  ((fmtInt T ++ [NUL]).length : Int) + ((fmtInt c ++ [NUL]).length : Int)

/-- A response: declared length `L`, type code `T`, call id `c`, each in
decimal with its terminator, then the bytes `rest`. -/
def response (L T c : Int) (rest : List Byte) : List Byte :=
  fmtInt L ++ [NUL] ++ (fmtInt T ++ [NUL] ++ (fmtInt c ++ [NUL] ++ rest))

/-- The number of bytes of `stream` that the reader has delivered after the
length field of declared length `L`, when it has not delivered `rest`. -/
def consumedAfterLength (stream rest : List Byte) (L : Int) : Int :=
  (stream.length : Int) - ((fmtInt L ++ [NUL]).length : Int) - (rest.length : Int)

/-- A response of declared length 10 with one return: tag INT, value text `7`. -/
def intReturnStream : List Byte :=
  response 10 100 1 (encodeReturns [{ TypeId := INT, Value := .str (ascii "7") }])

/-- A response of declared length 13 with one return: tag BOOL, value text `true`. -/
def boolReturnStream : List Byte :=
  response 13 100 1 (encodeReturns [{ TypeId := BOOL, Value := .str (ascii "true") }])

/-- A stream whose first frame, of declared length 8, ends after the tag field
of a STRING return; the bytes after the frame are `abc`, a NUL and `XYZ`. -/
def shortFrameStream : List Byte :=
  response 8 100 1 (ascii "8" ++ [NUL]) ++ (ascii "abc" ++ [NUL] ++ ascii "XYZ")

/-- A response of declared length 10 whose single QSTRING return ends at byte 14. -/
def overrunStream : List Byte :=
  response 10 100 1 (encodeReturns [{ TypeId := QSTRING, Value := .str (ascii "hello") }])

/-- A response of declared length 20 that ends inside the value of a STRING return. -/
def truncatedValueStream : List Byte :=
  response 20 100 1 (ascii "8" ++ [NUL] ++ ascii "abc")

/-- The type field of a written frame: its second terminated field. -/
def typeFieldOf (written : List Byte) : List Byte :=
  (ReadString NUL (ReadString NUL written).2.2).1.dropLast

/-- The field texts that strconv.ParseBool takes as true. -/
def trueTexts : List (List Byte) :=
  [ascii "1", ascii "t", ascii "T", ascii "TRUE", ascii "true", ascii "True"]

/-- The field texts that strconv.ParseBool takes as false. -/
def falseTexts : List (List Byte) :=
  [ascii "0", ascii "f", ascii "F", ascii "FALSE", ascii "false", ascii "False"]

/-- The state of the decode loop of ReceiveIPCCallResponse when its test is
evaluated: the counter, the returns so far, the bytes not yet read. -/
structure LoopState where
  currLen : Int
  rets : List PtmpIpcData
  unread : List Byte
  deriving DecidableEq, Repr

/-- What one pass of the decode loop does: it leaves the loop with the returns
and the unread bytes, or the process exits, or it comes back to the loop test
in a new state. -/
inductive Iteration where
  | exit (rets : List PtmpIpcData) (unread : List Byte)
  | fatal (f : Fault)
  | next (st : LoopState)
  deriving DecidableEq, Repr

/-- One pass of the decode loop of ReceiveIPCCallResponse from the state `st`:
the loop test and, when the loop goes on, its body. -/
def recvStep (msgLen : Int) (st : LoopState) : Iteration :=
  if st.currLen ≥ msgLen then .exit st.rets st.unread
  else
    let r := ReadString NUL st.unread
    let typeId := r.1
    if r.2.1 then .exit st.rets r.2.2
    else
      match Atoi typeId.dropLast with
      | none => .fatal .parse
      | some typeIdInt =>
        if typeIdInt = BYTE ∨ typeIdInt = BOOL ∨ typeIdInt = SHORT ∨ typeIdInt = INT
            ∨ typeIdInt = LONG ∨ typeIdInt = FLOAT ∨ typeIdInt = DOUBLE then
          .next { currLen := st.currLen, rets := st.rets, unread := r.2.2 }
        else if typeIdInt = STRING ∨ typeIdInt = QSTRING ∨ typeIdInt = IP_ADDRESS
            ∨ typeIdInt = IPV6_ADDRESS ∨ typeIdInt = MAC_ADDRESS ∨ typeIdInt = UUID then
          let v := ReadString NUL r.2.2
          let value := v.1
          if v.2.1 then .fatal .read
          else
            let valueStr := value.dropLast
            .next { currLen := st.currLen + (typeId.length : Int) + (value.length : Int),
                    rets := st.rets ++ [{ TypeId := typeIdInt, Value := .str valueStr }],
                    unread := v.2.2 }
        else if typeIdInt = VECTOR then
          match readInt r.2.2 with
          | .error e => .fatal e
          | .ok (vectorLen, s2) =>
            let currLen1 :=
              st.currLen + (typeId.length : Int) + ((fmtInt vectorLen ++ [NUL]).length : Int)
            match readInt s2 with
            | .error e => .fatal e
            | .ok (vectorDataType, s3) =>
              .next { currLen := currLen1 + ((fmtInt vectorDataType ++ [NUL]).length : Int),
                      rets := st.rets, unread := s3 }
        else if typeIdInt = PAIR ∨ typeIdInt = DATA then .fatal .unsupported
        else .next { currLen := st.currLen, rets := st.rets, unread := r.2.2 }

/-- The type tag the loop body reads in the state `st`. -/
def tagRead (st : LoopState) : Option Int := Atoi (ReadString NUL st.unread).1.dropLast

/-- The bytes left after the type tag field read in the state `st`. -/
def afterTag (st : LoopState) : List Byte := (ReadString NUL st.unread).2.2

/-- The next field of `s` is terminated and is canonical decimal text: what
`%d` prints for the int that Atoi reads from it. -/
def canonicalField (s : List Byte) : Bool :=
  !(ReadString NUL s).2.1 &&
    match Atoi (ReadString NUL s).1.dropLast with
    | some i => decide (fmtInt i = (ReadString NUL s).1.dropLast)
    | none => false

/-- The tags of the numeric and boolean scalars: BYTE to DOUBLE. -/
def numericTag (tag : Int) : Prop :=
  tag = BYTE ∨ tag = BOOL ∨ tag = SHORT ∨ tag = INT ∨ tag = LONG ∨ tag = FLOAT ∨ tag = DOUBLE

instance (tag : Int) : Decidable (numericTag tag) := by
  unfold numericTag; exact inferInstance

/-- What a response body is made of, as far as the decode loop goes: a return
with a string-like tag (the text of its tag field, the tag, its value), or
the header of a vector (the text of its tag field, its length, the type of
its elements). -/
inductive WireItem where
  | text (tagField : List Byte) (tag : Int) (value : List Byte)
  | vector (tagField : List Byte) (n : Int) (e : Int)
  deriving DecidableEq, Repr

/-- The bytes of an item: its fields, each with its terminator; the two
integers of a vector header in decimal. -/
def itemBytes : WireItem → List Byte
  | .text f _ v => f ++ [NUL] ++ (v ++ [NUL])
  | .vector f n e => f ++ [NUL] ++ (fmtInt n ++ [NUL] ++ (fmtInt e ++ [NUL]))

/-- The tag field of the item is NUL-free text that Atoi reads as the tag of the
item, a string-like one or VECTOR; the value is NUL-free; the integers of a
vector header are Go ints. -/
def itemOk : WireItem → Prop
  | .text f tag v => NUL ∉ f ∧ Atoi f = some tag ∧ stringLike tag ∧ NUL ∉ v
  | .vector f n e => NUL ∉ f ∧ Atoi f = some VECTOR ∧ inIntRange n ∧ inIntRange e

instance (it : WireItem) : Decidable (itemOk it) := by
  cases it <;> unfold itemOk <;> exact inferInstance

/-- The bytes of a sequence of items. -/
def itemsBytes : List WireItem → List Byte
  | [] => []
  | it :: rest => itemBytes it ++ itemsBytes rest

/-- The returns that a sequence of items holds: one for each return with a
string-like tag, none for a vector header. -/
def itemsReturns : List WireItem → List PtmpIpcData
  | [] => []
  | .text _ tag v :: rest => { TypeId := tag, Value := .str v } :: itemsReturns rest
  | .vector _ _ _ :: rest => itemsReturns rest

/-! ## The connection and the buffered reader of a receive operation -/

/-- The connection: the bytes written to it so far, the bytes arriving on it,
in the segments in which successive calls of its Read return them, and whether
it has been closed.  There is no other state: no operation records which
operations came before. -/
structure Conn where
  sent : List Byte
  arriving : List (List Byte)
  closed : Bool
  deriving DecidableEq, Repr

/-- The call `(*conn).Write(request)` and the check that follows it: on a closed
connection the write fails and the process exits. -/
def connWrite (conn : Conn) (request : List Byte) : Except Fault Conn :=
  if conn.closed then .error .write
  else .ok { conn with sent := conn.sent ++ request }

/-- The function SendAuthenticationRequest with its connection. -/
def SendAuthenticationRequestOn (conn : Conn) (info : PtmpAuthenticationRequestInfo) :
    Except Fault Conn :=
  connWrite conn (SendAuthenticationRequest info)

/-- The function SendIPCCall with its connection: the frame is built from the
call info alone and written. -/
def SendIPCCallOn (conn : Conn) (info : PtmpIpcCallInfo) : Except Fault Conn :=
  connWrite conn (SendIPCCall info)

/-- The function Disconnect with its connection: the frame is written and the
connection closed. -/
def DisconnectOn (conn : Conn) (reason : List Byte) : Except Fault Conn :=
  match connWrite conn (Disconnect reason) with
  | .error e => .error e
  | .ok c => .ok { c with closed := true }

/-- The size of the buffer of bufio.NewReader. -/
def bufSize : Nat := 4096

/-- A bufio.Reader on a connection: the bytes it has taken from the connection
and not yet delivered, and the segments still on the connection. -/
structure Reader where
  buf : List Byte
  conn : List (List Byte)
  deriving DecidableEq, Repr

/-- The bytes of a sequence of segments. -/
def joinSegments : List (List Byte) → List Byte
  | [] => []
  | seg :: rest => seg ++ joinSegments rest

/-- The bytes a reader can still deliver: its buffer, then the connection. -/
def readerStream (rd : Reader) : List Byte := rd.buf ++ joinSegments rd.conn

/-- A bound on the number of steps of one ReadString of the reader. -/
def readerBudget (rd : Reader) : Nat :=
  2 * (joinSegments rd.conn).length + rd.buf.length + rd.conn.length + 1

/-- The steps of bufio.Reader.ReadString: when the delimiter is in the buffer,
the bytes up to it are delivered after the fragments `acc` gathered so far;
when the buffer is full without delimiter, the whole buffer becomes a
fragment; otherwise the buffer is filled by one Read of the connection, which
returns the bytes of the next segment that fit the free part of the buffer, or
io.EOF when no segment is left, and then what is buffered is delivered with
io.EOF.  The first argument bounds the number of steps. -/
def readStringAux (delim : Byte) : Nat → List Byte → Reader → List Byte × Bool × Reader
  | 0, acc, rd => (acc, true, rd)
  | fuel + 1, acc, rd =>
    if delim ∈ rd.buf then
      let r := ReadString delim rd.buf
      (acc ++ r.1, false, { buf := r.2.2, conn := rd.conn })
    else if bufSize ≤ rd.buf.length then
      readStringAux delim fuel (acc ++ rd.buf) { buf := [], conn := rd.conn }
    else
      match rd.conn with
      | [] => (acc ++ rd.buf, true, { buf := [], conn := [] })
      | seg :: rest =>
        let n := min seg.length (bufSize - rd.buf.length)
        readStringAux delim fuel acc
          { buf := rd.buf ++ seg.take n,
            conn := if seg.length ≤ n then rest else seg.drop n :: rest }

/-- The method ReadString of a bufio.Reader on a connection: the string read,
whether the connection ended first (io.EOF), and the reader afterwards. -/
def bufReadString (rd : Reader) (delim : Byte) : List Byte × Bool × Reader :=
  readStringAux delim (readerBudget rd) [] rd

/-- The function readInt on a bufio.Reader on a connection. -/
def readIntFrom (rd : Reader) : Except Fault (Int × Reader) :=
  let r := bufReadString rd NUL
  if r.2.1 then .error .read
  else
    match Atoi r.1.dropLast with
    | none => .error .parse
    | some value => .ok (value, r.2.2)

/-- The decode loop of ReceiveIPCCallResponse on a bufio.Reader on a
connection: the loop `recvLoop`, reading through the reader. -/
def recvLoopFrom (msgLen : Int) :
    Nat → Int → List PtmpIpcData → Reader → Except Fault (List PtmpIpcData × Reader)
  | 0, _, _, _ => .error .fuel
  | fuel + 1, currLen, rets, rd =>
    if currLen ≥ msgLen then .ok (rets, rd)
    else
      let r := bufReadString rd NUL
      let typeId := r.1
      if r.2.1 then .ok (rets, r.2.2)
      else
        match Atoi typeId.dropLast with
        | none => .error .parse
        | some typeIdInt =>
          if typeIdInt = BYTE ∨ typeIdInt = BOOL ∨ typeIdInt = SHORT ∨ typeIdInt = INT
              ∨ typeIdInt = LONG ∨ typeIdInt = FLOAT ∨ typeIdInt = DOUBLE then
            recvLoopFrom msgLen fuel currLen rets r.2.2
          else if typeIdInt = STRING ∨ typeIdInt = QSTRING ∨ typeIdInt = IP_ADDRESS
              ∨ typeIdInt = IPV6_ADDRESS ∨ typeIdInt = MAC_ADDRESS ∨ typeIdInt = UUID then
            let v := bufReadString r.2.2 NUL
            let value := v.1
            if v.2.1 then .error .read
            else
              let valueStr := value.dropLast
              recvLoopFrom msgLen fuel (currLen + (typeId.length : Int) + (value.length : Int))
                (rets ++ [{ TypeId := typeIdInt, Value := .str valueStr }]) v.2.2
          else if typeIdInt = VECTOR then
            match readIntFrom r.2.2 with
            | .error e => .error e
            | .ok (vectorLen, rd2) =>
              let currLen1 :=
                currLen + (typeId.length : Int) + ((fmtInt vectorLen ++ [NUL]).length : Int)
              match readIntFrom rd2 with
              | .error e => .error e
              | .ok (vectorDataType, rd3) =>
                recvLoopFrom msgLen fuel
                  (currLen1 + ((fmtInt vectorDataType ++ [NUL]).length : Int)) rets rd3
          else if typeIdInt = PAIR ∨ typeIdInt = DATA then .error .unsupported
          else recvLoopFrom msgLen fuel currLen rets r.2.2

/-- The function ReceiveIPCCallResponse with its connection.  It reads through
a bufio.Reader of its own, made on entry and dropped on return: the result is
the decoded response and the connection afterwards, on which the segments the
reader has not taken are left; the bytes the reader holds in its buffer are
lost.  On a closed connection the first read fails and the process exits. -/
def ReceiveIPCCallResponseOn (conn : Conn) :
    Except Fault (PtmpIpcCallResponseInfo × Conn) :=
  if conn.closed then .error .read
  else
    let reader : Reader := { buf := [], conn := conn.arriving }
    match readIntFrom reader with
    | .error e => .error e
    | .ok (msgLen, rd1) =>
      match readIntFrom rd1 with
      | .error e => .error e
      | .ok (msgType, rd2) =>
        match readIntFrom rd2 with
        | .error e => .error e
        | .ok (callId, rd3) =>
          let currLen : Int :=
            ((fmtInt msgType ++ [NUL]).length : Int) + ((fmtInt callId ++ [NUL]).length : Int)
          match recvLoopFrom msgLen ((readerStream rd3).length + 1) currLen [] rd3 with
          | .error e => .error e
          | .ok (rets, rd) =>
            .ok ({ CallId := callId, Rets := rets }, { conn with arriving := rd.conn })

/-- The first IPC call of the handshake example. -/
def sampleCall : PtmpIpcCallInfo :=
  { CallId := 1, CallName := ascii "appWindow.getVersion", Args := [] }

/-- A connection on which nothing has happened. -/
def freshConn : Conn := { sent := [], arriving := [], closed := false }

/-- A loop state of a response of declared length 10: the counter at 6 and two
fields unread, the tag INT and the text `7`. -/
def numericTagState : LoopState :=
  { currLen := 6, rets := [], unread := ascii "4" ++ [NUL] ++ ascii "7" ++ [NUL] }

/-- A loop state with the counter at 6 and, unread, a STRING return whose tag
field is written with a sign. -/
def signedTagState : LoopState :=
  { currLen := 6, rets := [], unread := ascii "+8" ++ [NUL] ++ ascii "ab" ++ [NUL] }

/-- Two returns with string-like tags. -/
def twoReturns : List PtmpIpcData :=
  [{ TypeId := STRING, Value := .str (ascii "ab") },
   { TypeId := UUID, Value := .str (ascii "cd-e") }]

/-- A response of exact declared length 12 with one STRING return. -/
def exactFrame : List Byte :=
  response 12 100 1 (encodeReturns [{ TypeId := STRING, Value := .str (ascii "abc") }])

/-- The eight bytes of a following response, of declared length 6. -/
def followingFrame : List Byte := response 6 100 2 []

/-- A connection on which a response and the response that follows it arrive
in one segment. -/
def twoFramesConn : Conn :=
  { sent := [], arriving := [exactFrame ++ followingFrame], closed := false }

/-- A connection on which a response and the response that follows it arrive
in two segments. -/
def twoSegmentsConn : Conn :=
  { sent := [], arriving := [exactFrame, followingFrame], closed := false }

/-- The reader stands before the segments `later` of the connection: what it
can deliver before them, from its buffer and from the segments in front of
them, is `s`. -/
def readerBefore (rd : Reader) (later : List (List Byte)) (s : List Byte) : Prop :=
  ∃ front, rd.conn = front ++ later ∧ rd.buf ++ joinSegments front = s

/-- A return as an item of a response body: its tag in decimal and its value
as text. -/
def returnItem (r : PtmpIpcData) : WireItem :=
  .text (fmtInt r.TypeId) r.TypeId (fmtV r.Value)

/-! ## Facts about the library functions -/

theorem natDigits_acc (fuel n : Nat) (acc : List Byte) :
    natDigits fuel n acc = natDigits fuel n [] ++ acc := by
  induction fuel generalizing n acc with
  | zero => simp [natDigits]
  | succ f ih =>
    simp only [natDigits]
    split
    · simp
    · rw [ih (n / 10) (digit n :: acc), ih (n / 10) [digit n]]
      simp

theorem natDigits_isDigit (fuel n : Nat) :
    ∀ b ∈ natDigits fuel n [], 48 ≤ b.val ∧ b.val ≤ 57 := by
  induction fuel generalizing n with
  | zero => simp [natDigits]
  | succ f ih =>
    intro b hb
    simp only [natDigits] at hb
    split at hb
    · simp only [List.mem_singleton] at hb
      subst hb
      simp only [digit]
      omega
    · rw [natDigits_acc] at hb
      simp only [List.mem_append, List.mem_singleton] at hb
      rcases hb with hb | hb
      · exact ih _ b hb
      · subst hb
        simp only [digit]
        omega

theorem natDigits_ne_nil (fuel n : Nat) : natDigits (fuel + 1) n [] ≠ [] := by
  simp only [natDigits]
  split
  · simp
  · rw [natDigits_acc]
    simp

theorem parseDigits_natDigits (fuel n : Nat) (h : n < fuel) (tl : List Byte) (a : Nat) :
    parseDigits (natDigits fuel n [] ++ tl) a
      = parseDigits tl (a * 10 ^ (natDigits fuel n []).length + n) := by
  induction fuel generalizing n tl a with
  | zero => omega
  | succ f ih =>
    simp only [natDigits]
    split
    · rename_i hn
      have h1 : n % 10 = n := Nat.mod_eq_of_lt hn
      have hd : 48 ≤ 48 + n ∧ 48 + n ≤ 57 := by omega
      simp [parseDigits, digit, h1, hd]
    · rename_i hn
      have hf : n / 10 < f := by omega
      rw [natDigits_acc, List.append_assoc, ih (n / 10) hf]
      simp only [List.singleton_append, parseDigits, digit, List.length_append,
        List.length_singleton]
      have hd : 48 ≤ 48 + n % 10 ∧ 48 + n % 10 ≤ 57 := by omega
      rw [if_pos hd]
      congr 1
      rw [pow_succ]
      have := Nat.div_add_mod n 10
      have e : 48 + n % 10 - 48 = n % 10 := by omega
      rw [e]
      nlinarith [Nat.div_add_mod n 10]

theorem fmtNat_isDigit (n : Nat) : ∀ b ∈ fmtNat n, 48 ≤ b.val ∧ b.val ≤ 57 :=
  natDigits_isDigit (n + 1) n

theorem fmtNat_ne_nil (n : Nat) : fmtNat n ≠ [] := natDigits_ne_nil n n

theorem parseDigits_fmtNat (n : Nat) : parseDigits (fmtNat n) 0 = some n := by
  have h := parseDigits_natDigits (n + 1) n (by omega) [] 0
  simpa [fmtNat, parseDigits] using h

/-- No byte of the decimal text of an int is the terminator. -/
theorem NUL_not_mem_fmtInt (i : Int) : NUL ∉ fmtInt i := by
  intro h
  unfold fmtInt at h
  split at h
  · simp only [List.mem_cons] at h
    rcases h with h | h
    · exact absurd h (by decide)
    · have := fmtNat_isDigit _ _ h
      simp [NUL] at this
  · have := fmtNat_isDigit _ _ h
    simp [NUL] at this

theorem fmtInt_ne_nil (i : Int) : fmtInt i ≠ [] := by
  unfold fmtInt
  split
  · simp
  · exact fmtNat_ne_nil _

/-- Parsing the decimal text of a 64-bit int gives the int back. -/
theorem Atoi_fmtInt (i : Int) (h : inIntRange i) : Atoi (fmtInt i) = some i := by
  obtain ⟨hlo, hhi⟩ := h
  unfold fmtInt
  split
  · rename_i hneg
    have hne := fmtNat_ne_nil i.natAbs
    have hp := parseDigits_fmtNat i.natAbs
    cases hf : fmtNat i.natAbs with
    | nil => exact absurd hf hne
    | cons c t =>
      rw [hf] at hp
      have hle : i.natAbs ≤ 2 ^ 63 := by omega
      simp only [Atoi, if_true, hp, if_pos hle]
      congr 1
      omega
  · rename_i hpos
    have hne := fmtNat_ne_nil i.natAbs
    have hp := parseDigits_fmtNat i.natAbs
    have hd := fmtNat_isDigit i.natAbs
    cases hf : fmtNat i.natAbs with
    | nil => exact absurd hf hne
    | cons c t =>
      rw [hf] at hp hd
      have hc := hd c (List.mem_cons_self _ _)
      have h45 : c ≠ 45 := by
        intro e; subst e; exact absurd hc (by decide)
      have h43 : c ≠ 43 := by
        intro e; subst e; exact absurd hc (by decide)
      have hlt : i.natAbs < 2 ^ 63 := by omega
      simp only [Atoi, if_neg h45, if_neg h43, hp, if_pos hlt]
      congr 1
      omega

theorem ReadString_field (p rest : List Byte) (h : NUL ∉ p) :
    ReadString NUL (p ++ NUL :: rest) = (p ++ [NUL], false, rest) := by
  induction p with
  | nil => simp [ReadString]
  | cons b bs ih =>
    have hb : b ≠ NUL := fun e => h (by simp [e])
    have hbs : NUL ∉ bs := fun e => h (by simp [e])
    simp [ReadString, hb, ih hbs]

theorem ReadString_eof (p : List Byte) (h : NUL ∉ p) :
    ReadString NUL p = (p, true, []) := by
  induction p with
  | nil => simp [ReadString]
  | cons b bs ih =>
    have hb : b ≠ NUL := fun e => h (by simp [e])
    have hbs : NUL ∉ bs := fun e => h (by simp [e])
    simp [ReadString, hb, ih hbs]

theorem readStr_field (p rest : List Byte) (h : NUL ∉ p) :
    readStr (p ++ NUL :: rest) = .ok (p, rest) := by
  simp [readStr, ReadString_field p rest h]

theorem readInt_field (i : Int) (rest : List Byte) (h : inIntRange i) :
    readInt (fmtInt i ++ NUL :: rest) = .ok (i, rest) := by
  simp [readInt, ReadString_field _ rest (NUL_not_mem_fmtInt i), Atoi_fmtInt i h]

theorem Split_ne_nil (sep : Byte) (s : List Byte) : Split sep s ≠ [] := by
  induction s with
  | nil => simp [Split]
  | cons b bs ih =>
    simp only [Split]
    split
    · simp
    · split <;> simp

theorem mem_of_mem_Split (sep : Byte) (s : List Byte) :
    ∀ p ∈ Split sep s, ∀ b ∈ p, b ∈ s := by
  induction s with
  | nil => intro p hp b hb; simp [Split] at hp; subst hp; simp at hb
  | cons c cs ih =>
    intro p hp b hb
    simp only [Split] at hp
    split at hp
    · simp only [List.mem_cons] at hp
      rcases hp with hp | hp
      · subst hp; simp at hb
      · exact List.mem_cons_of_mem _ (ih p hp b hb)
    · split at hp
      · simp only [List.mem_singleton] at hp
        subst hp
        simp only [List.mem_singleton] at hb
        subst hb
        simp
      · rename_i q qs hq
        simp only [List.mem_cons] at hp
        rcases hp with hp | hp
        · subst hp
          simp only [List.mem_cons] at hb
          rcases hb with hb | hb
          · subst hb; simp
          · exact List.mem_cons_of_mem _ (ih q (by simp [hq]) b hb)
        · exact List.mem_cons_of_mem _ (ih p (by simp [hq, hp]) b hb)

theorem Split_field (p rest : List Byte) (h : NUL ∉ p) :
    Split NUL (p ++ NUL :: rest) = p :: Split NUL rest := by
  induction p with
  | nil => simp [Split]
  | cons b bs ih =>
    have hb : b ≠ NUL := fun e => h (by simp [e])
    have hbs : NUL ∉ bs := fun e => h (by simp [e])
    simp [Split, hb, ih hbs]

theorem Split_joinFields (fs : List (List Byte)) (h : ∀ f ∈ fs, NUL ∉ f) :
    Split NUL (joinFields fs) = fs ++ [[]] := by
  induction fs with
  | nil => simp [joinFields, Split]
  | cons f fs ih =>
    have hf : NUL ∉ f := h f (List.mem_cons_self _ _)
    have hfs : ∀ g ∈ fs, NUL ∉ g := fun g hg => h g (List.mem_cons_of_mem _ hg)
    simp only [joinFields, List.append_assoc, List.singleton_append, List.cons_append]
    rw [Split_field f _ hf]
    simp [ih hfs]

theorem fieldsOf_joinFields (fs : List (List Byte)) (h : ∀ f ∈ fs, NUL ∉ f) :
    fieldsOf (joinFields fs) = fs := by
  simp [fieldsOf, Split_joinFields fs h]

theorem joinFields_append (fs gs : List (List Byte)) :
    joinFields (fs ++ gs) = joinFields fs ++ joinFields gs := by
  induction fs with
  | nil => simp [joinFields]
  | cons f fs ih => simp [joinFields, ih]

theorem callNameLoop_eq (n : Int) (i : Nat) (parts : List (List Byte)) (acc : List Byte)
    (h : (i : Int) + parts.length = n) :
    callNameLoop n i parts acc = acc ++ joinFields (parts.intersperse marker) := by
  induction parts generalizing i acc with
  | nil => simp [callNameLoop, joinFields]
  | cons part rest ih =>
    cases rest with
    | nil =>
      have hi : ¬ ((i : Int) < n - 1) := by
        simp only [List.length_singleton] at h
        omega
      simp [callNameLoop, hi, joinFields]
    | cons r rs =>
      have hi : (i : Int) < n - 1 := by
        simp only [List.length_cons] at h
        push_cast at h
        omega
      have hn : ((i + 1 : Nat) : Int) + ((r :: rs).length : Int) = n := by
        simp only [List.length_cons] at h ⊢
        push_cast at h ⊢
        omega
      have step : callNameLoop n i (part :: r :: rs) acc
          = callNameLoop n (i + 1) (r :: rs) (acc ++ (part ++ [NUL]) ++ (marker ++ [NUL])) := by
        rw [callNameLoop]
        simp only [if_pos hi]
      rw [step, ih (i + 1) _ hn]
      simp [List.intersperse, joinFields]

theorem argsLoop_eq (args : List PtmpIpcData) (acc : List Byte) :
    argsLoop args acc = acc ++ joinFields (argFields args) := by
  induction args generalizing acc with
  | nil => simp [argsLoop, argFields, joinFields]
  | cons a rest ih =>
    simp only [argsLoop, argFields, joinFields]
    rw [ih]
    simp

theorem intersperse_marker_append (segs : List (List Byte)) (h : segs ≠ []) :
    segs.intersperse marker ++ [marker] = markedSegments segs := by
  induction segs with
  | nil => exact absurd rfl h
  | cons seg rest ih =>
    cases rest with
    | nil => simp [List.intersperse, markedSegments]
    | cons r rs =>
      have := ih (by simp)
      simp only [List.intersperse, List.cons_append, markedSegments] at this ⊢
      rw [this]

theorem markedSegments_length (segs : List (List Byte)) :
    (markedSegments segs).length = 2 * segs.length := by
  induction segs with
  | nil => simp [markedSegments]
  | cons seg rest ih => simp [markedSegments, ih]; omega

theorem mem_markedSegments (segs : List (List Byte)) :
    ∀ f ∈ markedSegments segs, f ∈ segs ∨ f = marker := by
  induction segs with
  | nil => simp [markedSegments]
  | cons seg rest ih =>
    intro f hf
    simp only [markedSegments, List.mem_cons] at hf ⊢
    rcases hf with hf | hf | hf
    · exact Or.inl (Or.inl hf)
    · exact Or.inr hf
    · rcases ih f hf with h | h
      · exact Or.inl (Or.inr h)
      · exact Or.inr h

/-- The body SendIPCCall builds, as a sequence of terminated fields. -/
theorem ipCallStr_eq (info : PtmpIpcCallInfo) :
    ipCallStr info = joinFields ([fmtInt info.CallId]
      ++ (Split 46 info.CallName).intersperse marker ++ argFields info.Args ++ [marker]) := by
  simp only [ipCallStr]
  rw [callNameLoop_eq _ 0 _ _ (by simp), argsLoop_eq]
  simp [joinFields_append, joinFields]

/-! ## The decode loop of ReceiveIPCCallResponse -/

theorem stringLike_inIntRange (t : Int) (h : stringLike t) : inIntRange t := by
  rcases h with h | h | h | h | h | h <;> subst h <;> decide

theorem stringLike_not_numeric (t : Int) (h : stringLike t) :
    ¬ (t = BYTE ∨ t = BOOL ∨ t = SHORT ∨ t = INT ∨ t = LONG ∨ t = FLOAT ∨ t = DOUBLE) := by
  rcases h with h | h | h | h | h | h <;> subst h <;> decide

theorem isText_eq (v : GoValue) (h : isText v = true) : ∃ s, v = .str s ∧ NUL ∉ s := by
  cases v with
  | str s => exact ⟨s, rfl, by simpa [isText] using h⟩
  | int i => simp [isText] at h
  | bool b => simp [isText] at h

theorem encodeReturns_cons (r : PtmpIpcData) (rs : List PtmpIpcData) :
    encodeReturns (r :: rs)
      = fmtInt r.TypeId ++ NUL :: (fmtV r.Value ++ NUL :: encodeReturns rs) := by
  simp [encodeReturns, argFields, joinFields]

theorem encodeReturns_append (rs qs : List PtmpIpcData) :
    encodeReturns (rs ++ qs) = encodeReturns rs ++ encodeReturns qs := by
  induction rs with
  | nil => simp [encodeReturns, argFields, joinFields]
  | cons r rs ih => simp [encodeReturns_cons, ih]

theorem encodeReturns_length_cons (r : PtmpIpcData) (rs : List PtmpIpcData) :
    (encodeReturns (r :: rs)).length
      = (fmtInt r.TypeId ++ [NUL]).length + (fmtV r.Value ++ [NUL]).length
        + (encodeReturns rs).length := by
  simp [encodeReturns_cons]
  omega

theorem length_le_encodeReturns (rs : List PtmpIpcData) :
    rs.length ≤ (encodeReturns rs).length := by
  induction rs with
  | nil => simp
  | cons r rs ih =>
    rw [encodeReturns_length_cons]
    simp only [List.length_cons, List.length_append, List.length_singleton]
    omega

theorem encodeReturns_take_le (rs : List PtmpIpcData) (i : Nat) :
    (encodeReturns (rs.take i)).length ≤ (encodeReturns rs).length := by
  conv_rhs => rw [← List.take_append_drop i rs, encodeReturns_append]
  simp

theorem encodeReturns_take_lt (rs : List PtmpIpcData) (i : Nat) (h : i < rs.length) :
    (encodeReturns (rs.take i)).length < (encodeReturns rs).length := by
  have hd : 0 < (rs.drop i).length := by simp; omega
  have := length_le_encodeReturns (rs.drop i)
  conv_rhs => rw [← List.take_append_drop i rs, encodeReturns_append]
  simp only [List.length_append]
  omega

/-- The loop stops, leaving the stream as it is, once the counter has reached
the declared length. -/
theorem recvLoop_exit (msgLen : Int) (fuel : Nat) (cur : Int) (rets : List PtmpIpcData)
    (s : List Byte) (h : msgLen ≤ cur) :
    recvLoop msgLen (fuel + 1) cur rets s = .ok (rets, s) := by
  simp [recvLoop, h]

/-- The loop stops without error when the stream ends where a type tag is read. -/
theorem recvLoop_eof (msgLen : Int) (fuel : Nat) (cur : Int) (rets : List PtmpIpcData)
    (s : List Byte) (h : cur < msgLen) (hs : NUL ∉ s) :
    recvLoop msgLen (fuel + 1) cur rets s = .ok (rets, []) := by
  simp [recvLoop, not_le.mpr h, ReadString_eof s hs]

/-- One iteration on a return with a string-like tag. -/
theorem recvLoop_text_step (msgLen : Int) (fuel : Nat) (cur : Int) (rets : List PtmpIpcData)
    (r : PtmpIpcData) (tail : List Byte) (hr : textReturn r) (h : cur < msgLen) :
    recvLoop msgLen (fuel + 1) cur rets (encodeReturns [r] ++ tail)
      = recvLoop msgLen fuel (cur + ((encodeReturns [r]).length : Int)) (rets ++ [r]) tail := by
  obtain ⟨t, val⟩ := r
  obtain ⟨ht, hval⟩ := hr
  obtain ⟨v, hv, hnul⟩ := isText_eq val hval
  subst hv
  have hs : encodeReturns [{ TypeId := t, Value := GoValue.str v }] ++ tail
      = fmtInt t ++ NUL :: (v ++ NUL :: tail) := by
    simp [encodeReturns, argFields, joinFields, fmtV]
  have hl : ((encodeReturns [{ TypeId := t, Value := GoValue.str v }]).length : Int)
      = ((fmtInt t ++ [NUL]).length : Int) + ((v ++ [NUL]).length : Int) := by
    simp [encodeReturns, argFields, joinFields, fmtV]
    omega
  rw [hs, hl, recvLoop]
  simp only [ReadString_field _ _ (NUL_not_mem_fmtInt t), ReadString_field _ _ hnul,
    List.dropLast_concat, Atoi_fmtInt t (stringLike_inIntRange t ht), ge_iff_le,
    if_neg (not_le.mpr h), if_neg (stringLike_not_numeric t ht)]
  simp only [stringLike] at ht
  simp [ht, add_assoc]

/-- The iterations on a run of returns with string-like tags, when the counter is
below the declared length before each of them. -/
theorem recvLoop_text_prefix (msgLen : Int) (rs : List PtmpIpcData)
    (hrs : ∀ r ∈ rs, textReturn r) (fuel : Nat) (cur : Int) (rets : List PtmpIpcData)
    (tail : List Byte)
    (h : ∀ i < rs.length, cur + ((encodeReturns (rs.take i)).length : Int) < msgLen) :
    recvLoop msgLen (rs.length + fuel) cur rets (encodeReturns rs ++ tail)
      = recvLoop msgLen fuel (cur + ((encodeReturns rs).length : Int)) (rets ++ rs) tail := by
  induction rs generalizing cur rets with
  | nil => simp [encodeReturns, argFields, joinFields]
  | cons r rs ih =>
    have hr : textReturn r := hrs r (List.mem_cons_self _ _)
    have h0 : cur < msgLen := by
      have := h 0 (by simp)
      simpa [encodeReturns, argFields, joinFields] using this
    have hsplit : encodeReturns (r :: rs) = encodeReturns [r] ++ encodeReturns rs :=
      encodeReturns_append [r] rs
    have hfuel : (r :: rs).length + fuel = (rs.length + fuel) + 1 := by
      simp only [List.length_cons]; omega
    rw [hsplit, List.append_assoc, hfuel, recvLoop_text_step msgLen _ cur rets r _ hr h0]
    rw [ih (fun q hq => hrs q (List.mem_cons_of_mem _ hq))]
    · simp only [List.length_append, List.append_assoc, List.singleton_append]
      push_cast
      rw [add_assoc]
    · intro i hi
      have := h (i + 1) (by simp only [List.length_cons]; omega)
      have e : encodeReturns (r :: rs.take i) = encodeReturns [r] ++ encodeReturns (rs.take i) :=
        encodeReturns_append [r] (rs.take i)
      rw [List.take_succ_cons, e] at this
      simp only [List.length_append] at this
      push_cast at this
      omega

theorem readInt_eof (s : List Byte) (hs : NUL ∉ s) : readInt s = .error .read := by
  simp [readInt, ReadString_eof s hs]

/-- The loop fails when the next type tag is PAIR or DATA. -/
theorem recvLoop_unsupported (msgLen : Int) (fuel : Nat) (cur : Int)
    (rets : List PtmpIpcData) (field tail : List Byte) (tag : Int) (h : cur < msgLen)
    (hf : NUL ∉ field) (hA : Atoi field = some tag) (htag : tag = PAIR ∨ tag = DATA) :
    recvLoop msgLen (fuel + 1) cur rets (field ++ NUL :: tail) = .error .unsupported := by
  rw [recvLoop]
  simp only [ReadString_field _ _ hf, List.dropLast_concat, hA, ge_iff_le,
    if_neg (not_le.mpr h)]
  rcases htag with e | e <;> subst e <;>
    simp [PAIR, DATA, BYTE, BOOL, SHORT, INT, LONG, FLOAT, DOUBLE, STRING, QSTRING,
      IP_ADDRESS, IPV6_ADDRESS, MAC_ADDRESS, UUID, VECTOR]

/-- The loop fails when the stream ends inside the value of a string-like tag. -/
theorem recvLoop_value_eof (msgLen : Int) (fuel : Nat) (cur : Int)
    (rets : List PtmpIpcData) (tag : Int) (part : List Byte) (h : cur < msgLen)
    (htag : stringLike tag) (hp : NUL ∉ part) :
    recvLoop msgLen (fuel + 1) cur rets (fmtInt tag ++ NUL :: part) = .error .read := by
  rw [recvLoop]
  simp only [ReadString_field _ _ (NUL_not_mem_fmtInt tag), ReadString_eof _ hp,
    List.dropLast_concat, Atoi_fmtInt tag (stringLike_inIntRange tag htag), ge_iff_le,
    if_neg (not_le.mpr h), if_neg (stringLike_not_numeric tag htag)]
  simp only [stringLike] at htag
  simp [htag]

/-- The loop fails when the stream ends inside the length field of a vector. -/
theorem recvLoop_vector_eof (msgLen : Int) (fuel : Nat) (cur : Int)
    (rets : List PtmpIpcData) (part : List Byte) (h : cur < msgLen) (hp : NUL ∉ part) :
    recvLoop msgLen (fuel + 1) cur rets (fmtInt VECTOR ++ NUL :: part) = .error .read := by
  rw [recvLoop]
  simp only [ReadString_field _ _ (NUL_not_mem_fmtInt VECTOR), List.dropLast_concat,
    Atoi_fmtInt VECTOR (by decide), ge_iff_le, if_neg (not_le.mpr h), readInt_eof _ hp]
  have h1 : ¬ (VECTOR = BYTE ∨ VECTOR = BOOL ∨ VECTOR = SHORT ∨ VECTOR = INT ∨ VECTOR = LONG
      ∨ VECTOR = FLOAT ∨ VECTOR = DOUBLE) := by decide
  have h2 : ¬ (VECTOR = STRING ∨ VECTOR = QSTRING ∨ VECTOR = IP_ADDRESS
      ∨ VECTOR = IPV6_ADDRESS ∨ VECTOR = MAC_ADDRESS ∨ VECTOR = UUID) := by decide
  simp [h1, h2]

/-- The loop fails when the stream ends inside the element type field of a
vector. -/
theorem recvLoop_vector_type_eof (msgLen : Int) (fuel : Nat) (cur : Int)
    (rets : List PtmpIpcData) (n : Int) (part : List Byte) (h : cur < msgLen)
    (hn : inIntRange n) (hp : NUL ∉ part) :
    recvLoop msgLen (fuel + 1) cur rets (fmtInt VECTOR ++ NUL :: (fmtInt n ++ NUL :: part))
      = .error .read := by
  rw [recvLoop]
  simp only [ReadString_field _ _ (NUL_not_mem_fmtInt VECTOR), List.dropLast_concat,
    Atoi_fmtInt VECTOR (by decide), ge_iff_le, if_neg (not_le.mpr h),
    readInt_field n part hn, readInt_eof _ hp]
  have h1 : ¬ (VECTOR = BYTE ∨ VECTOR = BOOL ∨ VECTOR = SHORT ∨ VECTOR = INT ∨ VECTOR = LONG
      ∨ VECTOR = FLOAT ∨ VECTOR = DOUBLE) := by decide
  have h2 : ¬ (VECTOR = STRING ∨ VECTOR = QSTRING ∨ VECTOR = IP_ADDRESS
      ∨ VECTOR = IPV6_ADDRESS ∨ VECTOR = MAC_ADDRESS ∨ VECTOR = UUID) := by decide
  simp [h1, h2]

/-- ReceiveIPCCallResponse on a response with canonical header fields: the
result of the loop started after the call id. -/
theorem ReceiveIPCCallResponse_response (L T c : Int) (hL : inIntRange L)
    (hT : inIntRange T) (hc : inIntRange c) (body : List Byte) :
    ReceiveIPCCallResponse (response L T c body)
      = match recvLoop L (body.length + 1) (headerLen T c) [] body with
        | .error e => .error e
        | .ok (rets, rest) => .ok ({ CallId := c, Rets := rets }, rest) := by
  simp only [response, List.append_assoc, List.singleton_append, ReceiveIPCCallResponse,
    readInt_field _ _ hL, readInt_field _ _ hT, readInt_field _ _ hc, headerLen]

/-- ReceiveIPCCallResponse on a response that starts with returns of string-like
tags, the counter being below the declared length before each of them: the loop
arrives after them with these returns, with at least one iteration left. -/
theorem ReceiveIPCCallResponse_text_prefix (L T c : Int) (hL : inIntRange L)
    (hT : inIntRange T) (hc : inIntRange c) (rs : List PtmpIpcData)
    (hrs : ∀ r ∈ rs, textReturn r) (tail : List Byte)
    (h : ∀ i < rs.length, headerLen T c + ((encodeReturns (rs.take i)).length : Int) < L) :
    ∃ fuel, ReceiveIPCCallResponse (response L T c (encodeReturns rs ++ tail))
      = match recvLoop L (fuel + 1) (headerLen T c + ((encodeReturns rs).length : Int)) rs tail
        with
        | .error e => .error e
        | .ok (rets, rest) => .ok ({ CallId := c, Rets := rets }, rest) := by
  refine ⟨(encodeReturns rs ++ tail).length - rs.length, ?_⟩
  have hle : rs.length ≤ (encodeReturns rs ++ tail).length := by
    have := length_le_encodeReturns rs
    simp only [List.length_append]
    omega
  have hfuel : (encodeReturns rs ++ tail).length + 1
      = rs.length + ((encodeReturns rs ++ tail).length - rs.length + 1) := by omega
  rw [ReceiveIPCCallResponse_response L T c hL hT hc, hfuel,
    recvLoop_text_prefix L rs hrs _ _ _ _ h]
  simp

/-- ReceiveIPCCallResponse on a response made of returns of string-like tags,
when the counter is below the declared length before each return and has
reached it after the last: all of them are returned and the tail is unread. -/
theorem ReceiveIPCCallResponse_text_returns (L T c : Int) (hL : inIntRange L)
    (hT : inIntRange T) (hc : inIntRange c) (rs : List PtmpIpcData)
    (hrs : ∀ r ∈ rs, textReturn r) (tail : List Byte)
    (h : ∀ i < rs.length, headerLen T c + ((encodeReturns (rs.take i)).length : Int) < L)
    (hend : L ≤ headerLen T c + ((encodeReturns rs).length : Int)) :
    ReceiveIPCCallResponse (response L T c (encodeReturns rs ++ tail))
      = .ok ({ CallId := c, Rets := rs }, tail) := by
  obtain ⟨fuel, hf⟩ := ReceiveIPCCallResponse_text_prefix L T c hL hT hc rs hrs tail h
  rw [hf, recvLoop_exit L fuel _ rs tail hend]

/-- The same when the declared length is exactly the length of the header
fields and the returns. -/
theorem ReceiveIPCCallResponse_exact (T c : Int) (hT : inIntRange T) (hc : inIntRange c)
    (rs : List PtmpIpcData) (hrs : ∀ r ∈ rs, textReturn r) (tail : List Byte)
    (hL : inIntRange (headerLen T c + ((encodeReturns rs).length : Int))) :
    ReceiveIPCCallResponse
        (response (headerLen T c + ((encodeReturns rs).length : Int)) T c
          (encodeReturns rs ++ tail))
      = .ok ({ CallId := c, Rets := rs }, tail) := by
  apply ReceiveIPCCallResponse_text_returns _ T c hL hT hc rs hrs tail
  · intro i hi
    have := encodeReturns_take_lt rs i hi
    omega
  · exact le_refl _

/-! ## Facts about readBool and readStr -/

theorem readStr_eof (s : List Byte) (hs : NUL ∉ s) : readStr s = .error .read := by
  simp [readStr, ReadString_eof s hs]

theorem ParseBool_true (f : List Byte) (h : f ∈ trueTexts) : ParseBool f = some true := by
  simp only [trueTexts, List.mem_cons, List.mem_singleton, List.not_mem_nil, or_false] at h
  simp only [ParseBool]
  rw [if_pos h]

theorem ParseBool_false (f : List Byte) (h : f ∈ falseTexts) : ParseBool f = some false := by
  simp only [falseTexts, List.mem_cons, List.mem_singleton, List.not_mem_nil, or_false] at h
  have hn : ¬ (f = ascii "1" ∨ f = ascii "t" ∨ f = ascii "T" ∨ f = ascii "TRUE"
      ∨ f = ascii "true" ∨ f = ascii "True") := by
    rcases h with h | h | h | h | h | h <;> subst h <;> decide
  simp only [ParseBool]
  rw [if_neg hn, if_pos h]

theorem ParseBool_none (f : List Byte) (ht : f ∉ trueTexts) (hf : f ∉ falseTexts) :
    ParseBool f = none := by
  simp only [trueTexts, List.mem_cons, List.mem_singleton, List.not_mem_nil, or_false] at ht
  simp only [falseTexts, List.mem_cons, List.mem_singleton, List.not_mem_nil, or_false] at hf
  simp only [ParseBool]
  rw [if_neg ht, if_neg hf]

theorem readBool_field (f rest : List Byte) (h : NUL ∉ f) :
    readBool (f ++ NUL :: rest)
      = if f = [] then .ok (false, rest)
        else match ParseBool f with
          | none => .error .parse
          | some value => .ok (value, rest) := by
  simp only [readBool, ReadString_field f rest h, List.dropLast_concat, List.length_append,
    List.length_singleton]
  cases f with
  | nil => simp
  | cons b bs => simp

/-! ## The decode loop, pass by pass -/

/-- The loop with one more pass allowed is one pass followed by the loop. -/
theorem recvLoop_succ (msgLen : Int) (fuel : Nat) (cur : Int) (rets : List PtmpIpcData)
    (s : List Byte) :
    recvLoop msgLen (fuel + 1) cur rets s
      = match recvStep msgLen { currLen := cur, rets := rets, unread := s } with
        | .exit r u => .ok (r, u)
        | .fatal f => .error f
        | .next st => recvLoop msgLen fuel st.currLen st.rets st.unread := by
  rw [recvLoop]
  unfold recvStep
  dsimp only
  repeat' split
  all_goals first
    | rfl
    | (rename_i h; injection h with h; subst h; rfl)
    | simp_all

theorem ReadString_length (d : Byte) (s : List Byte) :
    (ReadString d s).1.length + (ReadString d s).2.2.length = s.length := by
  induction s with
  | nil => simp [ReadString]
  | cons b bs ih =>
    simp only [ReadString]
    split
    · simp only [List.length_cons, List.length_nil]
      omega
    · simp only [List.length_cons]
      omega

theorem ReadString_ne_nil (d : Byte) (s : List Byte) (h : (ReadString d s).2.1 = false) :
    0 < (ReadString d s).1.length := by
  cases s with
  | nil => simp [ReadString] at h
  | cons b bs =>
    simp only [ReadString]
    split <;> simp

theorem ReadString_rest_lt (d : Byte) (s : List Byte) (h : (ReadString d s).2.1 = false) :
    (ReadString d s).2.2.length < s.length := by
  have h1 := ReadString_length d s
  have h2 := ReadString_ne_nil d s h
  omega

theorem readInt_ok (s s' : List Byte) (v : Int) (h : readInt s = .ok (v, s')) :
    (ReadString NUL s).2.1 = false ∧ Atoi (ReadString NUL s).1.dropLast = some v
      ∧ s' = (ReadString NUL s).2.2 := by
  unfold readInt at h
  dsimp only at h
  by_cases h1 : (ReadString NUL s).2.1 = true
  · rw [if_pos h1] at h; cases h
  · rw [if_neg h1] at h
    cases hA : Atoi (ReadString NUL s).1.dropLast with
    | none => simp only [hA] at h; cases h
    | some w =>
      simp only [hA] at h
      injection h with h
      injection h with h3 h4
      subst h3
      exact ⟨by simpa using h1, rfl, h4.symm⟩

theorem readInt_error (s : List Byte) (e : Fault) (h : readInt s = .error e) :
    e = .read ∨ e = .parse := by
  unfold readInt at h
  dsimp only at h
  by_cases h1 : (ReadString NUL s).2.1 = true
  · rw [if_pos h1] at h
    injection h with h
    exact Or.inl h.symm
  · rw [if_neg h1] at h
    cases hA : Atoi (ReadString NUL s).1.dropLast with
    | none =>
      simp only [hA] at h
      injection h with h
      exact Or.inr h.symm
    | some w => simp only [hA] at h; cases h

theorem numericTag_not_stringLike (t : Int) (h : numericTag t) :
    ¬ stringLike t ∧ t ≠ VECTOR ∧ t ≠ PAIR ∧ t ≠ DATA := by
  rcases h with h | h | h | h | h | h | h <;> subst h <;> decide

theorem stringLike_ne_vector (t : Int) (h : stringLike t) : t ≠ VECTOR := by
  rcases h with h | h | h | h | h | h <;> subst h <;> decide

/-- The three ways in which a pass of the loop comes back to the loop test:
after a tag without decoder, after a return with a string-like tag, after the
header of a vector. -/
theorem recvStep_next_cases (msgLen : Int) (st st' : LoopState)
    (h : recvStep msgLen st = .next st') :
    st.currLen < msgLen ∧ (ReadString NUL st.unread).2.1 = false ∧
    ∃ tag, tagRead st = some tag ∧
      ((¬ stringLike tag ∧ tag ≠ VECTOR ∧ tag ≠ PAIR ∧ tag ≠ DATA
          ∧ st' = { currLen := st.currLen, rets := st.rets, unread := afterTag st })
      ∨ (stringLike tag ∧ (ReadString NUL (afterTag st)).2.1 = false
          ∧ st' = { currLen := st.currLen + ((ReadString NUL st.unread).1.length : Int)
                      + ((ReadString NUL (afterTag st)).1.length : Int),
                    rets := st.rets ++ [PtmpIpcData.mk tag
                      (.str (ReadString NUL (afterTag st)).1.dropLast)],
                    unread := (ReadString NUL (afterTag st)).2.2 })
      ∨ (tag = VECTOR ∧ ∃ n e s2 s3, readInt (afterTag st) = .ok (n, s2)
          ∧ readInt s2 = .ok (e, s3)
          ∧ st' = { currLen := st.currLen + ((ReadString NUL st.unread).1.length : Int)
                      + ((fmtInt n ++ [NUL]).length : Int) + ((fmtInt e ++ [NUL]).length : Int),
                    rets := st.rets, unread := s3 })) := by
  unfold recvStep at h
  dsimp only at h
  by_cases h1 : st.currLen ≥ msgLen
  · rw [if_pos h1] at h; cases h
  rw [if_neg h1] at h
  by_cases h2 : (ReadString NUL st.unread).2.1 = true
  · rw [if_pos h2] at h; cases h
  rw [if_neg h2] at h
  refine ⟨not_le.mp h1, by simpa using h2, ?_⟩
  cases hA : Atoi (ReadString NUL st.unread).1.dropLast with
  | none => simp only [hA] at h; cases h
  | some tag =>
    simp only [hA] at h
    refine ⟨tag, hA, ?_⟩
    by_cases h3 : tag = BYTE ∨ tag = BOOL ∨ tag = SHORT ∨ tag = INT ∨ tag = LONG
        ∨ tag = FLOAT ∨ tag = DOUBLE
    · rw [if_pos h3] at h
      injection h with h
      obtain ⟨a, b, c, d⟩ := numericTag_not_stringLike tag h3
      exact Or.inl ⟨a, b, c, d, h.symm⟩
    rw [if_neg h3] at h
    by_cases h4 : tag = STRING ∨ tag = QSTRING ∨ tag = IP_ADDRESS ∨ tag = IPV6_ADDRESS
        ∨ tag = MAC_ADDRESS ∨ tag = UUID
    · rw [if_pos h4] at h
      by_cases h5 : (ReadString NUL (ReadString NUL st.unread).2.2).2.1 = true
      · rw [if_pos h5] at h; cases h
      · rw [if_neg h5] at h
        injection h with h
        exact Or.inr (Or.inl ⟨h4, by simpa [afterTag] using h5, h.symm⟩)
    rw [if_neg h4] at h
    by_cases h6 : tag = VECTOR
    · rw [if_pos h6] at h
      cases hr1 : readInt (ReadString NUL st.unread).2.2 with
      | error e => simp only [hr1] at h; cases h
      | ok p1 =>
        obtain ⟨n, s2⟩ := p1
        simp only [hr1] at h
        cases hr2 : readInt s2 with
        | error e => simp only [hr2] at h; cases h
        | ok p2 =>
          obtain ⟨e, s3⟩ := p2
          simp only [hr2] at h
          injection h with h
          exact Or.inr (Or.inr ⟨h6, n, e, s2, s3, hr1, hr2, h.symm⟩)
    rw [if_neg h6] at h
    by_cases h7 : tag = PAIR ∨ tag = DATA
    · rw [if_pos h7] at h; cases h
    · rw [if_neg h7] at h
      injection h with h
      exact Or.inl ⟨h4, h6, fun e => h7 (Or.inl e), fun e => h7 (Or.inr e), h.symm⟩

/-- A pass that comes back to the loop test has read at least one byte. -/
theorem recvStep_decreases (msgLen : Int) (st st' : LoopState)
    (h : recvStep msgLen st = .next st') : st'.unread.length < st.unread.length := by
  obtain ⟨_, h2, tag, _, hc⟩ := recvStep_next_cases msgLen st st' h
  have l1 := ReadString_rest_lt NUL st.unread h2
  rcases hc with ⟨_, _, _, _, e⟩ | ⟨_, h5, e⟩ | ⟨_, n, v, s2, s3, hr1, hr2, e⟩
  · subst e; exact l1
  · subst e
    have l2 := ReadString_rest_lt NUL (afterTag st) h5
    simp only [afterTag] at l2 ⊢
    omega
  · subst e
    obtain ⟨a1, _, a3⟩ := readInt_ok _ _ _ hr1
    obtain ⟨b1, _, b3⟩ := readInt_ok _ _ _ hr2
    have l2 := ReadString_rest_lt NUL (afterTag st) a1
    have l3 := ReadString_rest_lt NUL s2 b1
    subst b3
    subst a3
    simp only [afterTag] at l2 l3 ⊢
    omega

theorem recvStep_fatal_ne_fuel (msgLen : Int) (st : LoopState) :
    recvStep msgLen st ≠ .fatal .fuel := by
  intro h
  unfold recvStep at h
  dsimp only at h
  by_cases h1 : st.currLen ≥ msgLen
  · rw [if_pos h1] at h; cases h
  rw [if_neg h1] at h
  by_cases h2 : (ReadString NUL st.unread).2.1 = true
  · rw [if_pos h2] at h; cases h
  rw [if_neg h2] at h
  cases hA : Atoi (ReadString NUL st.unread).1.dropLast with
  | none => simp only [hA] at h; cases h
  | some tag =>
    simp only [hA] at h
    by_cases h3 : tag = BYTE ∨ tag = BOOL ∨ tag = SHORT ∨ tag = INT ∨ tag = LONG
        ∨ tag = FLOAT ∨ tag = DOUBLE
    · rw [if_pos h3] at h; cases h
    rw [if_neg h3] at h
    by_cases h4 : tag = STRING ∨ tag = QSTRING ∨ tag = IP_ADDRESS ∨ tag = IPV6_ADDRESS
        ∨ tag = MAC_ADDRESS ∨ tag = UUID
    · rw [if_pos h4] at h
      by_cases h5 : (ReadString NUL (ReadString NUL st.unread).2.2).2.1 = true
      · rw [if_pos h5] at h; cases h
      · rw [if_neg h5] at h; cases h
    rw [if_neg h4] at h
    by_cases h6 : tag = VECTOR
    · rw [if_pos h6] at h
      cases hr1 : readInt (ReadString NUL st.unread).2.2 with
      | error e =>
        simp only [hr1] at h
        injection h with h
        subst h
        rcases readInt_error _ _ hr1 with e1 | e1 <;> cases e1
      | ok p1 =>
        obtain ⟨n, s2⟩ := p1
        simp only [hr1] at h
        cases hr2 : readInt s2 with
        | error e =>
          simp only [hr2] at h
          injection h with h
          subst h
          rcases readInt_error _ _ hr2 with e1 | e1 <;> cases e1
        | ok p2 =>
          obtain ⟨e, s3⟩ := p2
          simp only [hr2] at h
          cases h
    rw [if_neg h6] at h
    by_cases h7 : tag = PAIR ∨ tag = DATA
    · rw [if_pos h7] at h; cases h
    · rw [if_neg h7] at h; cases h

/-- With more passes allowed than bytes unread, the loop does not stop for want
of passes. -/
theorem recvLoop_ne_fuel (msgLen : Int) (fuel : Nat) (cur : Int) (rets : List PtmpIpcData)
    (s : List Byte) (h : s.length < fuel) :
    recvLoop msgLen fuel cur rets s ≠ .error .fuel := by
  induction fuel generalizing cur rets s with
  | zero => omega
  | succ f ih =>
    rw [recvLoop_succ]
    cases hs : recvStep msgLen { currLen := cur, rets := rets, unread := s } with
    | exit r u => simp
    | fatal e =>
      have := recvStep_fatal_ne_fuel msgLen { currLen := cur, rets := rets, unread := s }
      rw [hs] at this
      simp only [ne_eq, Except.error.injEq]
      intro he
      exact this (by rw [he])
    | next st' =>
      have hd := recvStep_decreases msgLen _ st' hs
      simp only at hd ⊢
      exact ih _ _ _ (by omega)

/-- With more passes allowed than bytes unread, the result of the loop does not
depend on the number of passes allowed. -/
theorem recvLoop_fuel_irrelevant (msgLen : Int) (f1 f2 : Nat) (cur : Int)
    (rets : List PtmpIpcData) (s : List Byte) (h1 : s.length < f1) (h2 : s.length < f2) :
    recvLoop msgLen f1 cur rets s = recvLoop msgLen f2 cur rets s := by
  induction f1 generalizing f2 cur rets s with
  | zero => omega
  | succ f ih =>
    cases f2 with
    | zero => omega
    | succ g =>
      rw [recvLoop_succ, recvLoop_succ]
      cases hs : recvStep msgLen { currLen := cur, rets := rets, unread := s } with
      | exit r u => rfl
      | fatal e => rfl
      | next st' =>
        have hd := recvStep_decreases msgLen _ st' hs
        simp only at hd ⊢
        exact ih g _ _ _ (by omega) (by omega)

/-- ReceiveIPCCallResponse never stops for want of passes of its loop. -/
theorem ReceiveIPCCallResponse_ne_fuel (s : List Byte) :
    ReceiveIPCCallResponse s ≠ .error .fuel := by
  unfold ReceiveIPCCallResponse
  cases h1 : readInt s with
  | error e =>
    simp only
    rcases readInt_error _ _ h1 with e1 | e1 <;> subst e1 <;> simp
  | ok p1 =>
    obtain ⟨msgLen, s1⟩ := p1
    simp only
    cases h2 : readInt s1 with
    | error e =>
      simp only
      rcases readInt_error _ _ h2 with e1 | e1 <;> subst e1 <;> simp
    | ok p2 =>
      obtain ⟨msgType, s2⟩ := p2
      simp only
      cases h3 : readInt s2 with
      | error e =>
        simp only
        rcases readInt_error _ _ h3 with e1 | e1 <;> subst e1 <;> simp
      | ok p3 =>
        obtain ⟨callId, s3⟩ := p3
        simp only
        have hl := recvLoop_ne_fuel msgLen (s3.length + 1)
          (((fmtInt msgType ++ [NUL]).length : Int) + ((fmtInt callId ++ [NUL]).length : Int))
          [] s3 (by omega)
        cases hr : recvLoop msgLen (s3.length + 1)
          (((fmtInt msgType ++ [NUL]).length : Int) + ((fmtInt callId ++ [NUL]).length : Int))
          [] s3 with
        | error e =>
          rw [hr] at hl
          simp only [ne_eq, Except.error.injEq] at hl ⊢
          exact hl
        | ok r => simp

/-- A pass on a tag without decoder, with the counter below the declared
length: the tag field is read and nothing else changes. -/
theorem recvStep_skip (msgLen : Int) (st : LoopState) (tag : Int)
    (h : st.currLen < msgLen) (heof : (ReadString NUL st.unread).2.1 = false)
    (htag : tagRead st = some tag)
    (hskip : numericTag tag ∨ tag < 1 ∨ 16 < tag) :
    recvStep msgLen st
      = .next { currLen := st.currLen, rets := st.rets, unread := afterTag st } := by
  unfold recvStep
  dsimp only
  simp only [tagRead] at htag
  rw [if_neg (not_le.mpr h), heof]
  simp only [htag, Bool.false_eq_true, if_false]
  rcases hskip with hn | hlo | hhi
  · simp only [numericTag] at hn
    rw [if_pos hn]
    rfl
  · have a : ¬ (tag = BYTE ∨ tag = BOOL ∨ tag = SHORT ∨ tag = INT ∨ tag = LONG
        ∨ tag = FLOAT ∨ tag = DOUBLE) := by
      simp only [BYTE, BOOL, SHORT, INT, LONG, FLOAT, DOUBLE]; omega
    have b : ¬ (tag = STRING ∨ tag = QSTRING ∨ tag = IP_ADDRESS ∨ tag = IPV6_ADDRESS
        ∨ tag = MAC_ADDRESS ∨ tag = UUID) := by
      simp only [STRING, QSTRING, IP_ADDRESS, IPV6_ADDRESS, MAC_ADDRESS, UUID]; omega
    have c : ¬ tag = VECTOR := by simp only [VECTOR]; omega
    have d : ¬ (tag = PAIR ∨ tag = DATA) := by simp only [PAIR, DATA]; omega
    rw [if_neg a, if_neg b, if_neg c, if_neg d]
    rfl
  · have a : ¬ (tag = BYTE ∨ tag = BOOL ∨ tag = SHORT ∨ tag = INT ∨ tag = LONG
        ∨ tag = FLOAT ∨ tag = DOUBLE) := by
      simp only [BYTE, BOOL, SHORT, INT, LONG, FLOAT, DOUBLE]; omega
    have b : ¬ (tag = STRING ∨ tag = QSTRING ∨ tag = IP_ADDRESS ∨ tag = IPV6_ADDRESS
        ∨ tag = MAC_ADDRESS ∨ tag = UUID) := by
      simp only [STRING, QSTRING, IP_ADDRESS, IPV6_ADDRESS, MAC_ADDRESS, UUID]; omega
    have c : ¬ tag = VECTOR := by simp only [VECTOR]; omega
    have d : ¬ (tag = PAIR ∨ tag = DATA) := by simp only [PAIR, DATA]; omega
    rw [if_neg a, if_neg b, if_neg c, if_neg d]
    rfl

/-- In a pass on a string-like tag, or on a vector whose length and element
type fields are canonical, the counter grows by the number of bytes read. -/
theorem recvStep_counter (msgLen : Int) (st st' : LoopState)
    (h : recvStep msgLen st = .next st') (tag : Int) (htag : tagRead st = some tag)
    (hgood : stringLike tag ∨ (tag = VECTOR ∧ canonicalField (afterTag st) = true
      ∧ canonicalField (ReadString NUL (afterTag st)).2.2 = true)) :
    st'.currLen - st.currLen = (st.unread.length : Int) - (st'.unread.length : Int) := by
  obtain ⟨_, h2, tag', htag', hc⟩ := recvStep_next_cases msgLen st st' h
  rw [htag] at htag'
  injection htag' with htag'
  subst htag'
  have l1 := ReadString_length NUL st.unread
  rcases hc with ⟨a, b, _, _, _⟩ | ⟨_, h5, e⟩ | ⟨_, n, v, s2, s3, hr1, hr2, e⟩
  · rcases hgood with g | ⟨g, _⟩
    · exact absurd g a
    · exact absurd g b
  · subst e
    have l2 := ReadString_length NUL (afterTag st)
    simp only [afterTag] at l2 ⊢
    omega
  · subst e
    rcases hgood with g | ⟨_, c1, c2⟩
    · exact absurd ‹tag = VECTOR› (stringLike_ne_vector tag g)
    · obtain ⟨a1, a2, a3⟩ := readInt_ok _ _ _ hr1
      subst a3
      obtain ⟨b1, b2, b3⟩ := readInt_ok _ _ _ hr2
      subst b3
      have l2 := ReadString_length NUL (afterTag st)
      have l3 := ReadString_length NUL (ReadString NUL (afterTag st)).2.2
      have p2 := ReadString_ne_nil NUL (afterTag st) a1
      have p3 := ReadString_ne_nil NUL (ReadString NUL (afterTag st)).2.2 b1
      simp only [canonicalField, a1, a2, Bool.not_false, Bool.true_and,
        decide_eq_true_eq] at c1
      simp only [canonicalField, b1, b2, Bool.not_false, Bool.true_and,
        decide_eq_true_eq] at c2
      have e1 : (fmtInt n ++ [NUL]).length = (ReadString NUL (afterTag st)).1.length := by
        rw [List.length_append, c1, List.length_dropLast, List.length_singleton]
        omega
      have e2 : (fmtInt v ++ [NUL]).length
          = (ReadString NUL (ReadString NUL (afterTag st)).2.2).1.length := by
        rw [List.length_append, c2, List.length_dropLast, List.length_singleton]
        omega
      simp only [afterTag] at l2 l3 e1 e2 ⊢
      rw [e1, e2]
      omega

theorem itemBytes_pos (it : WireItem) : 0 < (itemBytes it).length := by
  cases it <;> simp [itemBytes]

theorem length_le_itemsBytes (items : List WireItem) :
    items.length ≤ (itemsBytes items).length := by
  induction items with
  | nil => simp
  | cons it rest ih =>
    have := itemBytes_pos it
    simp only [itemsBytes, List.length_cons, List.length_append]
    omega

/-- One pass of the loop on an item. -/
theorem recvLoop_item_step (msgLen : Int) (fuel : Nat) (cur : Int)
    (rets : List PtmpIpcData) (it : WireItem) (tail : List Byte) (hw : itemOk it)
    (h : cur < msgLen) :
    recvLoop msgLen (fuel + 1) cur rets (itemBytes it ++ tail)
      = recvLoop msgLen fuel (cur + ((itemBytes it).length : Int))
          (rets ++ itemsReturns [it]) tail := by
  cases it with
  | text f tag v =>
    obtain ⟨hf, hA, ht, hv⟩ := hw
    have hs : itemBytes (.text f tag v) ++ tail = f ++ NUL :: (v ++ NUL :: tail) := by
      simp [itemBytes]
    have hl : ((itemBytes (.text f tag v)).length : Int)
        = ((f ++ [NUL]).length : Int) + ((v ++ [NUL]).length : Int) := by
      simp [itemBytes]
      omega
    rw [hs, hl, recvLoop]
    simp only [ReadString_field _ _ hf, ReadString_field _ _ hv, List.dropLast_concat, hA,
      ge_iff_le, if_neg (not_le.mpr h), if_neg (stringLike_not_numeric tag ht)]
    simp only [stringLike] at ht
    simp [ht, add_assoc, itemsReturns]
  | vector f n e =>
    obtain ⟨hf, hA, hn, he⟩ := hw
    have hs : itemBytes (.vector f n e) ++ tail
        = f ++ NUL :: (fmtInt n ++ NUL :: (fmtInt e ++ NUL :: tail)) := by
      simp [itemBytes]
    have hl : ((itemBytes (.vector f n e)).length : Int)
        = ((f ++ [NUL]).length : Int) + ((fmtInt n ++ [NUL]).length : Int)
          + ((fmtInt e ++ [NUL]).length : Int) := by
      simp [itemBytes]
      omega
    have h1 : ¬ (VECTOR = BYTE ∨ VECTOR = BOOL ∨ VECTOR = SHORT ∨ VECTOR = INT
        ∨ VECTOR = LONG ∨ VECTOR = FLOAT ∨ VECTOR = DOUBLE) := by decide
    have h2 : ¬ (VECTOR = STRING ∨ VECTOR = QSTRING ∨ VECTOR = IP_ADDRESS
        ∨ VECTOR = IPV6_ADDRESS ∨ VECTOR = MAC_ADDRESS ∨ VECTOR = UUID) := by decide
    rw [hs, hl, recvLoop]
    simp only [ReadString_field _ _ hf, List.dropLast_concat, hA, ge_iff_le,
      if_neg (not_le.mpr h), if_neg h1, if_neg h2, if_true, readInt_field n _ hn,
      readInt_field e _ he, itemsReturns, List.append_nil]
    simp [add_assoc]

/-- The passes of the loop on a sequence of items that ends at or before the
declared length. -/
theorem recvLoop_items (msgLen : Int) (items : List WireItem)
    (hw : ∀ it ∈ items, itemOk it) (fuel : Nat) (cur : Int) (rets : List PtmpIpcData)
    (tail : List Byte) (h : cur + ((itemsBytes items).length : Int) ≤ msgLen) :
    recvLoop msgLen (items.length + fuel) cur rets (itemsBytes items ++ tail)
      = recvLoop msgLen fuel (cur + ((itemsBytes items).length : Int))
          (rets ++ itemsReturns items) tail := by
  induction items generalizing cur rets with
  | nil => simp [itemsBytes, itemsReturns]
  | cons it rest ih =>
    have hit : itemOk it := hw it (List.mem_cons_self _ _)
    have hpos := itemBytes_pos it
    have hlen : ((itemsBytes (it :: rest)).length : Int)
        = ((itemBytes it).length : Int) + ((itemsBytes rest).length : Int) := by
      simp [itemsBytes]
    have h0 : cur < msgLen := by omega
    have hfuel : (it :: rest).length + fuel = (rest.length + fuel) + 1 := by
      simp only [List.length_cons]; omega
    have hret : itemsReturns (it :: rest) = itemsReturns [it] ++ itemsReturns rest := by
      cases it <;> simp [itemsReturns]
    have hb : itemsBytes (it :: rest) ++ tail = itemBytes it ++ (itemsBytes rest ++ tail) := by
      simp [itemsBytes]
    rw [hb, hfuel, recvLoop_item_step msgLen _ cur rets it _ hit h0,
      ih (fun q hq => hw q (List.mem_cons_of_mem _ hq)) _ _ (by omega), hlen, hret]
    simp [add_assoc]

/-- ReceiveIPCCallResponse on a response whose declared length is exact and
whose body is a sequence of items: their returns, and the tail unread. -/
theorem ReceiveIPCCallResponse_items (T c : Int) (hT : inIntRange T) (hc : inIntRange c)
    (items : List WireItem) (hw : ∀ it ∈ items, itemOk it) (tail : List Byte)
    (hL : inIntRange (headerLen T c + ((itemsBytes items).length : Int))) :
    ReceiveIPCCallResponse
        (response (headerLen T c + ((itemsBytes items).length : Int)) T c
          (itemsBytes items ++ tail))
      = .ok ({ CallId := c, Rets := itemsReturns items }, tail) := by
  have hle : items.length ≤ (itemsBytes items ++ tail).length := by
    have := length_le_itemsBytes items
    simp only [List.length_append]
    omega
  have hfuel : (itemsBytes items ++ tail).length + 1
      = items.length + ((itemsBytes items ++ tail).length - items.length + 1) := by omega
  rw [ReceiveIPCCallResponse_response _ T c hL hT hc, hfuel,
    recvLoop_items _ items hw _ _ _ _ (le_refl _), recvLoop_exit _ _ _ _ _ (le_refl _)]
  simp

/-! ## The connection -/

theorem SendIPCCall_ne_nil (info : PtmpIpcCallInfo) : SendIPCCall info ≠ [] := by
  simp [SendIPCCall]

/-! ## The buffered reader delivers the bytes of the connection in order -/

theorem ReadString_append_of_mem (d : Byte) (buf tail : List Byte) (h : d ∈ buf) :
    ReadString d (buf ++ tail)
      = ((ReadString d buf).1, false, (ReadString d buf).2.2 ++ tail) := by
  induction buf with
  | nil => simp at h
  | cons b bs ih =>
    simp only [List.cons_append, ReadString]
    by_cases hb : b = d
    · simp [hb]
    · have hbs : d ∈ bs := by
        rcases List.mem_cons.mp h with e | e
        · exact absurd e.symm hb
        · exact e
      simp [hb, ih hbs]

theorem ReadString_append_of_not_mem (d : Byte) (buf tail : List Byte) (h : d ∉ buf) :
    ReadString d (buf ++ tail)
      = (buf ++ (ReadString d tail).1, (ReadString d tail).2.1, (ReadString d tail).2.2) := by
  induction buf with
  | nil => simp
  | cons b bs ih =>
    have hb : b ≠ d := fun e => h (by simp [e])
    have hbs : d ∉ bs := fun e => h (by simp [e])
    simp [ReadString, hb, ih hbs]

theorem ReadString_of_not_mem (d : Byte) (s : List Byte) (h : d ∉ s) :
    ReadString d s = (s, true, []) := by
  have := ReadString_append_of_not_mem d s [] h
  simpa [ReadString] using this

theorem joinSegments_length_cons (seg : List Byte) (rest : List (List Byte)) :
    (joinSegments (seg :: rest)).length = seg.length + (joinSegments rest).length := by
  simp [joinSegments]

/-- One ReadString of the buffered reader, with steps enough: it delivers what
ReadString delivers of the bytes of the buffer followed by the connection, and
the buffer and the connection afterwards hold the bytes that follow. -/
theorem readStringAux_spec (delim : Byte) (fuel : Nat) (acc : List Byte) (rd : Reader)
    (h : readerBudget rd ≤ fuel) :
    (readStringAux delim fuel acc rd).1 = acc ++ (ReadString delim (readerStream rd)).1
    ∧ (readStringAux delim fuel acc rd).2.1 = (ReadString delim (readerStream rd)).2.1
    ∧ readerStream (readStringAux delim fuel acc rd).2.2
        = (ReadString delim (readerStream rd)).2.2 := by
  induction fuel generalizing acc rd with
  | zero => simp [readerBudget] at h
  | succ f ih =>
    obtain ⟨buf, conn⟩ := rd
    rw [readStringAux]
    by_cases h1 : delim ∈ buf
    · simp only [if_pos h1, readerStream, ReadString_append_of_mem delim buf _ h1]
      exact ⟨trivial, trivial, trivial⟩
    · simp only [if_neg h1]
      by_cases h2 : bufSize ≤ buf.length
      · simp only [if_pos h2]
        have hb : readerBudget { buf := [], conn := conn } ≤ f := by
          simp only [readerBudget, bufSize, List.length_nil] at h h2 ⊢
          omega
        obtain ⟨a1, a2, a3⟩ := ih (acc ++ buf) { buf := [], conn := conn } hb
        simp only [readerStream, List.nil_append] at a1 a2 a3 ⊢
        rw [ReadString_append_of_not_mem delim buf _ h1]
        exact ⟨by rw [a1, List.append_assoc], a2, a3⟩
      · simp only [if_neg h2]
        cases conn with
        | nil =>
          simp only [readerStream, joinSegments, List.append_nil,
            ReadString_of_not_mem delim buf h1]
          exact ⟨trivial, trivial, trivial⟩
        | cons seg rest =>
          simp only
          have hs : readerStream
              { buf := buf ++ seg.take (min seg.length (bufSize - buf.length)),
                conn := if seg.length ≤ min seg.length (bufSize - buf.length) then rest
                  else seg.drop (min seg.length (bufSize - buf.length)) :: rest }
              = readerStream { buf := buf, conn := seg :: rest } := by
            simp only [readerStream]
            split
            · rename_i hle
              rw [List.take_of_length_le hle]
              simp [joinSegments]
            · simp only [joinSegments, List.append_assoc]
              rw [← List.append_assoc (List.take _ seg), List.take_append_drop]
          have hb : readerBudget
              { buf := buf ++ seg.take (min seg.length (bufSize - buf.length)),
                conn := if seg.length ≤ min seg.length (bufSize - buf.length) then rest
                  else seg.drop (min seg.length (bufSize - buf.length)) :: rest } ≤ f := by
            simp only [readerBudget, joinSegments_length_cons, List.length_cons] at h
            simp only [readerBudget, List.length_append, List.length_take]
            split
            · rename_i hle
              simp only [bufSize] at h2 hle ⊢
              omega
            · rename_i hle
              simp only [joinSegments_length_cons, List.length_cons, List.length_drop]
              simp only [bufSize] at h2 hle ⊢
              omega
          obtain ⟨a1, a2, a3⟩ := ih acc _ hb
          rw [hs] at a1 a2 a3
          exact ⟨a1, a2, a3⟩

theorem bufReadString_spec (rd : Reader) (delim : Byte) :
    (bufReadString rd delim).1 = (ReadString delim (readerStream rd)).1
    ∧ (bufReadString rd delim).2.1 = (ReadString delim (readerStream rd)).2.1
    ∧ readerStream (bufReadString rd delim).2.2 = (ReadString delim (readerStream rd)).2.2 := by
  have := readStringAux_spec delim (readerBudget rd) [] rd (le_refl _)
  simpa [bufReadString] using this

theorem readIntFrom_spec (rd : Reader) :
    (readIntFrom rd).map (fun p => (p.1, readerStream p.2)) = readInt (readerStream rd) := by
  obtain ⟨b1, b2, b3⟩ := bufReadString_spec rd NUL
  unfold readIntFrom readInt
  dsimp only
  rw [b1, b2]
  by_cases h1 : (ReadString NUL (readerStream rd)).2.1 = true
  · simp only [if_pos h1]; rfl
  · simp only [if_neg h1]
    cases hA : Atoi (ReadString NUL (readerStream rd)).1.dropLast with
    | none => rfl
    | some v => simp only [Except.map, b3]

theorem readIntFrom_error (rd : Reader) (e : Fault) (h : readIntFrom rd = .error e) :
    readInt (readerStream rd) = .error e := by
  rw [← readIntFrom_spec, h]; rfl

theorem readIntFrom_ok (rd rd' : Reader) (v : Int) (h : readIntFrom rd = .ok (v, rd')) :
    readInt (readerStream rd) = .ok (v, readerStream rd') := by
  rw [← readIntFrom_spec, h]; rfl

/-- The decode loop reading through the buffered reader returns what the loop
returns on the bytes the reader can deliver, and leaves the reader with the
bytes the loop has left. -/
theorem recvLoopFrom_spec (msgLen : Int) (fuel : Nat) (cur : Int)
    (rets : List PtmpIpcData) (rd : Reader) :
    (recvLoopFrom msgLen fuel cur rets rd).map (fun p => (p.1, readerStream p.2))
      = recvLoop msgLen fuel cur rets (readerStream rd) := by
  induction fuel generalizing cur rets rd with
  | zero => rfl
  | succ f ih =>
    obtain ⟨b1, b2, b3⟩ := bufReadString_spec rd NUL
    obtain ⟨c1, c2, c3⟩ := bufReadString_spec (bufReadString rd NUL).2.2 NUL
    rw [b3] at c1 c2 c3
    rw [recvLoopFrom, recvLoop]
    dsimp only
    rw [b1, b2, c1, c2]
    by_cases h1 : cur ≥ msgLen
    · simp only [if_pos h1]; rfl
    simp only [if_neg h1]
    by_cases h2 : (ReadString NUL (readerStream rd)).2.1 = true
    · simp only [if_pos h2, Except.map, b3]
    simp only [if_neg h2]
    cases hA : Atoi (ReadString NUL (readerStream rd)).1.dropLast with
    | none => rfl
    | some tag =>
      simp only
      by_cases h3 : tag = BYTE ∨ tag = BOOL ∨ tag = SHORT ∨ tag = INT ∨ tag = LONG
          ∨ tag = FLOAT ∨ tag = DOUBLE
      · simp only [if_pos h3]
        rw [ih, b3]
      simp only [if_neg h3]
      by_cases h4 : tag = STRING ∨ tag = QSTRING ∨ tag = IP_ADDRESS ∨ tag = IPV6_ADDRESS
          ∨ tag = MAC_ADDRESS ∨ tag = UUID
      · simp only [if_pos h4]
        by_cases h5 : (ReadString NUL (ReadString NUL (readerStream rd)).2.2).2.1 = true
        · simp only [if_pos h5]; rfl
        · simp only [if_neg h5]
          rw [ih, c3]
      simp only [if_neg h4]
      by_cases h6 : tag = VECTOR
      · simp only [if_pos h6]
        cases hr1 : readIntFrom (bufReadString rd NUL).2.2 with
        | error e =>
          have := readIntFrom_error _ _ hr1
          rw [b3] at this
          simp only [this]; rfl
        | ok p1 =>
          obtain ⟨n, rd2⟩ := p1
          have := readIntFrom_ok _ _ _ hr1
          rw [b3] at this
          simp only [this]
          cases hr2 : readIntFrom rd2 with
          | error e =>
            have := readIntFrom_error _ _ hr2
            simp only [this]; rfl
          | ok p2 =>
            obtain ⟨e, rd3⟩ := p2
            have := readIntFrom_ok _ _ _ hr2
            simp only [this]
            rw [ih]
      simp only [if_neg h6]
      by_cases h7 : tag = PAIR ∨ tag = DATA
      · simp only [if_pos h7]; rfl
      · simp only [if_neg h7]
        rw [ih, b3]

/-- ReceiveIPCCallResponse with its connection returns what ReceiveIPCCallResponse
returns on the bytes arriving on the connection; of the bytes it leaves
undelivered, the first are lost with its reader and the others are the segments
left on the connection. -/
theorem ReceiveIPCCallResponseOn_spec (conn : Conn) (hopen : conn.closed = false) :
    match ReceiveIPCCallResponse (joinSegments conn.arriving) with
    | .error e => ReceiveIPCCallResponseOn conn = .error e
    | .ok (info, rest) =>
      ∃ left dropped, ReceiveIPCCallResponseOn conn = .ok (info, { conn with arriving := left })
        ∧ dropped ++ joinSegments left = rest := by
  have hs : joinSegments conn.arriving = readerStream { buf := [], conn := conn.arriving } := by
    simp [readerStream]
  unfold ReceiveIPCCallResponseOn ReceiveIPCCallResponse
  simp only [hopen, Bool.false_eq_true, if_false]
  rw [hs]
  cases hr1 : readIntFrom { buf := [], conn := conn.arriving } with
  | error e => rw [readIntFrom_error _ _ hr1]
  | ok p1 =>
    obtain ⟨msgLen, rd1⟩ := p1
    rw [readIntFrom_ok _ _ _ hr1]
    simp only
    cases hr2 : readIntFrom rd1 with
    | error e => rw [readIntFrom_error _ _ hr2]
    | ok p2 =>
      obtain ⟨msgType, rd2⟩ := p2
      rw [readIntFrom_ok _ _ _ hr2]
      simp only
      cases hr3 : readIntFrom rd2 with
      | error e => rw [readIntFrom_error _ _ hr3]
      | ok p3 =>
        obtain ⟨callId, rd3⟩ := p3
        rw [readIntFrom_ok _ _ _ hr3]
        simp only
        rw [← recvLoopFrom_spec]
        cases hl : recvLoopFrom msgLen ((readerStream rd3).length + 1)
            (((fmtInt msgType ++ [NUL]).length : Int) + ((fmtInt callId ++ [NUL]).length : Int))
            [] rd3 with
        | error e => rfl
        | ok q =>
          obtain ⟨rets, rd⟩ := q
          exact ⟨rd.conn, rd.buf, rfl, rfl⟩

/-! ## The buffered reader takes no segment after the one that ends the field -/

theorem joinSegments_append (a b : List (List Byte)) :
    joinSegments (a ++ b) = joinSegments a ++ joinSegments b := by
  induction a with
  | nil => simp [joinSegments]
  | cons seg rest ih => simp [joinSegments, ih]

theorem readerStream_of_before (rd : Reader) (later : List (List Byte)) (s : List Byte)
    (h : readerBefore rd later s) : readerStream rd = s ++ joinSegments later := by
  obtain ⟨front, hc, hs⟩ := h
  simp only [readerStream, hc, joinSegments_append, ← hs, List.append_assoc]

theorem mem_of_ReadString_found (d : Byte) (s : List Byte) (h : (ReadString d s).2.1 = false) :
    d ∈ s := by
  by_contra hn
  rw [ReadString_of_not_mem d s hn] at h
  simp at h

/-- When the delimiter is among the bytes in front of the segments `later`, one
ReadString leaves these segments on the connection. -/
theorem readStringAux_local (delim : Byte) (fuel : Nat) (acc buf : List Byte)
    (front later : List (List Byte)) (hmem : delim ∈ buf ++ joinSegments front)
    (h : readerBudget { buf := buf, conn := front ++ later } ≤ fuel) :
    readerBefore (readStringAux delim fuel acc { buf := buf, conn := front ++ later }).2.2
      later (ReadString delim (buf ++ joinSegments front)).2.2 := by
  induction fuel generalizing acc buf front with
  | zero => simp [readerBudget] at h
  | succ f ih =>
    rw [readStringAux]
    by_cases h1 : delim ∈ buf
    · simp only [if_pos h1, ReadString_append_of_mem delim buf _ h1]
      exact ⟨front, rfl, rfl⟩
    · simp only [if_neg h1]
      have hfront : delim ∈ joinSegments front := by
        rcases List.mem_append.mp hmem with e | e
        · exact absurd e h1
        · exact e
      by_cases h2 : bufSize ≤ buf.length
      · simp only [if_pos h2]
        have hb : readerBudget { buf := [], conn := front ++ later } ≤ f := by
          simp only [readerBudget, bufSize, List.length_nil] at h h2 ⊢
          omega
        have := ih (acc ++ buf) [] front (by simpa using hfront) hb
        rw [ReadString_append_of_not_mem delim buf _ h1]
        simpa using this
      · simp only [if_neg h2]
        cases front with
        | nil => simp [joinSegments] at hfront
        | cons seg rest =>
          simp only [List.cons_append]
          have hc : (if seg.length ≤ min seg.length (bufSize - buf.length) then rest ++ later
                else seg.drop (min seg.length (bufSize - buf.length)) :: (rest ++ later))
              = (if seg.length ≤ min seg.length (bufSize - buf.length) then rest
                else seg.drop (min seg.length (bufSize - buf.length)) :: rest) ++ later := by
            split <;> simp
          have hs : (buf ++ seg.take (min seg.length (bufSize - buf.length)))
              ++ joinSegments (if seg.length ≤ min seg.length (bufSize - buf.length) then rest
                else seg.drop (min seg.length (bufSize - buf.length)) :: rest)
              = buf ++ joinSegments (seg :: rest) := by
            split
            · rename_i hle
              rw [List.take_of_length_le hle]
              simp [joinSegments]
            · simp only [joinSegments, List.append_assoc]
              rw [← List.append_assoc (List.take _ seg), List.take_append_drop]
          have hb : readerBudget
              { buf := buf ++ seg.take (min seg.length (bufSize - buf.length)),
                conn := (if seg.length ≤ min seg.length (bufSize - buf.length) then rest
                  else seg.drop (min seg.length (bufSize - buf.length)) :: rest) ++ later }
              ≤ f := by
            simp only [readerBudget, List.cons_append, joinSegments_length_cons,
              List.length_cons, joinSegments_append, List.length_append] at h
            simp only [readerBudget, List.length_append, List.length_take,
              joinSegments_append]
            split
            · rename_i hle
              simp only [bufSize] at h2 hle ⊢
              omega
            · rename_i hle
              simp only [joinSegments_length_cons, List.length_cons, List.length_drop]
              simp only [bufSize] at h2 hle ⊢
              omega
          rw [hc]
          have := ih acc (buf ++ seg.take (min seg.length (bufSize - buf.length))) _
            (by rw [hs]; exact hmem) hb
          rw [hs] at this
          exact this

/-- The read of a field that lies in front of the segments `later`: the field
with its terminator is delivered and the reader still stands before them. -/
theorem bufReadString_field (rd : Reader) (later : List (List Byte)) (p s : List Byte)
    (h : readerBefore rd later (p ++ NUL :: s)) (hp : NUL ∉ p) :
    ∃ rd', bufReadString rd NUL = (p ++ [NUL], false, rd') ∧ readerBefore rd' later s := by
  obtain ⟨b1, b2, _⟩ := bufReadString_spec rd NUL
  have hstream := readerStream_of_before rd later _ h
  rw [hstream] at b1 b2
  have e : p ++ NUL :: s ++ joinSegments later = p ++ NUL :: (s ++ joinSegments later) := by
    simp
  rw [e, ReadString_field p _ hp] at b1 b2
  obtain ⟨front, hc, hs⟩ := h
  obtain ⟨buf, conn⟩ := rd
  simp only at hc hs
  subst hc
  have hl := readStringAux_local NUL (readerBudget { buf := buf, conn := front ++ later }) []
    buf front later (by rw [hs]; simp) (le_refl _)
  rw [hs, ReadString_field p _ hp] at hl
  refine ⟨(bufReadString { buf := buf, conn := front ++ later } NUL).2.2, ?_, hl⟩
  exact Prod.ext b1 (Prod.ext b2 rfl)

theorem readIntFrom_field (rd : Reader) (later : List (List Byte)) (i : Int)
    (s : List Byte) (h : readerBefore rd later (fmtInt i ++ NUL :: s)) (hi : inIntRange i) :
    ∃ rd', readIntFrom rd = .ok (i, rd') ∧ readerBefore rd' later s := by
  obtain ⟨rd', e, hb⟩ := bufReadString_field rd later (fmtInt i) s h (NUL_not_mem_fmtInt i)
  refine ⟨rd', ?_, hb⟩
  simp [readIntFrom, e, Atoi_fmtInt i hi]

theorem recvLoopFrom_exit (msgLen : Int) (fuel : Nat) (cur : Int) (rets : List PtmpIpcData)
    (rd : Reader) (h : msgLen ≤ cur) :
    recvLoopFrom msgLen (fuel + 1) cur rets rd = .ok (rets, rd) := by
  simp [recvLoopFrom, h]

/-- One pass of the loop, reading through the buffered reader, on an item that
lies in front of the segments `later`. -/
theorem recvLoopFrom_item_step (msgLen : Int) (fuel : Nat) (cur : Int)
    (rets : List PtmpIpcData) (it : WireItem) (rd : Reader) (later : List (List Byte))
    (s : List Byte) (hb : readerBefore rd later (itemBytes it ++ s)) (hw : itemOk it)
    (h : cur < msgLen) :
    ∃ rd', recvLoopFrom msgLen (fuel + 1) cur rets rd
        = recvLoopFrom msgLen fuel (cur + ((itemBytes it).length : Int))
            (rets ++ itemsReturns [it]) rd'
      ∧ readerBefore rd' later s := by
  cases it with
  | text f tag v =>
    obtain ⟨hf, hA, ht, hv⟩ := hw
    have hs : itemBytes (.text f tag v) ++ s = f ++ NUL :: (v ++ NUL :: s) := by
      simp [itemBytes]
    have hl : ((itemBytes (.text f tag v)).length : Int)
        = ((f ++ [NUL]).length : Int) + ((v ++ [NUL]).length : Int) := by
      simp [itemBytes]
      omega
    rw [hs] at hb
    obtain ⟨rd1, e1, hb1⟩ := bufReadString_field rd later f _ hb hf
    obtain ⟨rd2, e2, hb2⟩ := bufReadString_field rd1 later v _ hb1 hv
    refine ⟨rd2, ?_, hb2⟩
    rw [hl, recvLoopFrom]
    simp only [e1, e2, List.dropLast_concat, hA, ge_iff_le, if_neg (not_le.mpr h),
      if_neg (stringLike_not_numeric tag ht)]
    simp only [stringLike] at ht
    simp [ht, add_assoc, itemsReturns]
  | vector f n e =>
    obtain ⟨hf, hA, hn, he⟩ := hw
    have hs : itemBytes (.vector f n e) ++ s
        = f ++ NUL :: (fmtInt n ++ NUL :: (fmtInt e ++ NUL :: s)) := by
      simp [itemBytes]
    have hl : ((itemBytes (.vector f n e)).length : Int)
        = ((f ++ [NUL]).length : Int) + ((fmtInt n ++ [NUL]).length : Int)
          + ((fmtInt e ++ [NUL]).length : Int) := by
      simp [itemBytes]
      omega
    have h1 : ¬ (VECTOR = BYTE ∨ VECTOR = BOOL ∨ VECTOR = SHORT ∨ VECTOR = INT
        ∨ VECTOR = LONG ∨ VECTOR = FLOAT ∨ VECTOR = DOUBLE) := by decide
    have h2 : ¬ (VECTOR = STRING ∨ VECTOR = QSTRING ∨ VECTOR = IP_ADDRESS
        ∨ VECTOR = IPV6_ADDRESS ∨ VECTOR = MAC_ADDRESS ∨ VECTOR = UUID) := by decide
    rw [hs] at hb
    obtain ⟨rd1, e1, hb1⟩ := bufReadString_field rd later f _ hb hf
    obtain ⟨rd2, e2, hb2⟩ := readIntFrom_field rd1 later n _ hb1 hn
    obtain ⟨rd3, e3, hb3⟩ := readIntFrom_field rd2 later e _ hb2 he
    refine ⟨rd3, ?_, hb3⟩
    rw [hl, recvLoopFrom]
    simp only [e1, e2, e3, List.dropLast_concat, hA, ge_iff_le, if_neg (not_le.mpr h),
      if_neg h1, if_neg h2, if_true, itemsReturns, List.append_nil]
    simp [add_assoc]

/-- The passes of the loop, reading through the buffered reader, on a sequence
of items that lies in front of the segments `later` and ends at or before the
declared length. -/
theorem recvLoopFrom_items (msgLen : Int) (items : List WireItem)
    (hw : ∀ it ∈ items, itemOk it) (fuel : Nat) (cur : Int) (rets : List PtmpIpcData)
    (rd : Reader) (later : List (List Byte)) (s : List Byte)
    (hb : readerBefore rd later (itemsBytes items ++ s))
    (h : cur + ((itemsBytes items).length : Int) ≤ msgLen) :
    ∃ rd', recvLoopFrom msgLen (items.length + fuel) cur rets rd
        = recvLoopFrom msgLen fuel (cur + ((itemsBytes items).length : Int))
            (rets ++ itemsReturns items) rd'
      ∧ readerBefore rd' later s := by
  induction items generalizing cur rets rd with
  | nil =>
    refine ⟨rd, ?_, by simpa [itemsBytes] using hb⟩
    simp [itemsBytes, itemsReturns]
  | cons it rest ih =>
    have hit : itemOk it := hw it (List.mem_cons_self _ _)
    have hpos := itemBytes_pos it
    have hlen : ((itemsBytes (it :: rest)).length : Int)
        = ((itemBytes it).length : Int) + ((itemsBytes rest).length : Int) := by
      simp [itemsBytes]
    have h0 : cur < msgLen := by omega
    have hfuel : (it :: rest).length + fuel = (rest.length + fuel) + 1 := by
      simp only [List.length_cons]; omega
    have hret : itemsReturns (it :: rest) = itemsReturns [it] ++ itemsReturns rest := by
      cases it <;> simp [itemsReturns]
    have hbytes : itemsBytes (it :: rest) ++ s = itemBytes it ++ (itemsBytes rest ++ s) := by
      simp [itemsBytes]
    rw [hbytes] at hb
    obtain ⟨rd1, e1, hb1⟩ := recvLoopFrom_item_step msgLen (rest.length + fuel) cur rets it rd
      later _ hb hit h0
    obtain ⟨rd2, e2, hb2⟩ := ih (fun q hq => hw q (List.mem_cons_of_mem _ hq))
      (cur + ((itemBytes it).length : Int)) (rets ++ itemsReturns [it]) rd1 hb1 (by omega)
    refine ⟨rd2, ?_, hb2⟩
    rw [hfuel, e1, e2, hlen, hret]
    simp [add_assoc]

/-- ReceiveIPCCallResponse with its connection, when a response of exact
declared length made of items, followed by the bytes `tail`, arrives in the
segments `front` and other segments `later` come after: the response is
decoded, the segments `later` are all left on the connection, and of `tail`
what the reader holds in its buffer is lost. -/
theorem ReceiveIPCCallResponseOn_items (T c : Int) (hT : inIntRange T) (hc : inIntRange c)
    (items : List WireItem) (hw : ∀ it ∈ items, itemOk it) (tail : List Byte)
    (hL : inIntRange (headerLen T c + ((itemsBytes items).length : Int)))
    (conn : Conn) (front later : List (List Byte)) (hopen : conn.closed = false)
    (harr : conn.arriving = front ++ later)
    (hfront : joinSegments front
      = response (headerLen T c + ((itemsBytes items).length : Int)) T c
          (itemsBytes items ++ tail)) :
    ∃ kept dropped,
      ReceiveIPCCallResponseOn conn
        = .ok ({ CallId := c, Rets := itemsReturns items },
            { conn with arriving := kept ++ later })
      ∧ dropped ++ joinSegments kept = tail := by
  have hb0 : readerBefore { buf := [], conn := conn.arriving } later
      (fmtInt (headerLen T c + ((itemsBytes items).length : Int)) ++ NUL ::
        (fmtInt T ++ NUL :: (fmtInt c ++ NUL :: (itemsBytes items ++ tail)))) := by
    refine ⟨front, harr, ?_⟩
    simp only [List.nil_append, hfront, response, List.append_assoc, List.singleton_append]
  obtain ⟨rd1, e1, hb1⟩ := readIntFrom_field _ later _ _ hb0 hL
  obtain ⟨rd2, e2, hb2⟩ := readIntFrom_field _ later _ _ hb1 hT
  obtain ⟨rd3, e3, hb3⟩ := readIntFrom_field _ later _ _ hb2 hc
  have hstream := readerStream_of_before rd3 later _ hb3
  have hle : items.length ≤ (readerStream rd3).length := by
    have := length_le_itemsBytes items
    rw [hstream]
    simp only [List.length_append]
    omega
  have hfuel : (readerStream rd3).length + 1
      = items.length + ((readerStream rd3).length - items.length + 1) := by omega
  obtain ⟨rd4, e4, hb4⟩ := recvLoopFrom_items
    (headerLen T c + ((itemsBytes items).length : Int)) items hw
    ((readerStream rd3).length - items.length + 1) (headerLen T c) [] rd3 later tail hb3
    (le_refl _)
  obtain ⟨kept, hk, hd⟩ := hb4
  refine ⟨kept, rd4.buf, ?_, hd⟩
  unfold ReceiveIPCCallResponseOn
  simp only [hopen, Bool.false_eq_true, if_false, e1, e2, e3]
  have hh : ((fmtInt T ++ [NUL]).length : Int) + ((fmtInt c ++ [NUL]).length : Int)
      = headerLen T c := rfl
  rw [hh, hfuel, e4, recvLoopFrom_exit _ _ _ _ _ (le_refl _)]
  simp [hk]

theorem itemsBytes_returnItem (rs : List PtmpIpcData) :
    itemsBytes (rs.map returnItem) = encodeReturns rs := by
  induction rs with
  | nil => simp [itemsBytes, encodeReturns, argFields, joinFields]
  | cons r rs ih =>
    simp only [List.map_cons, itemsBytes, ih, encodeReturns_cons, returnItem, itemBytes]
    simp

theorem itemOk_returnItem (r : PtmpIpcData) (h : textReturn r) : itemOk (returnItem r) := by
  obtain ⟨t, val⟩ := r
  obtain ⟨ht, hval⟩ := h
  obtain ⟨v, hv, hnul⟩ := isText_eq val hval
  subst hv
  exact ⟨NUL_not_mem_fmtInt t, Atoi_fmtInt t (stringLike_inIntRange t ht), ht, hnul⟩

theorem itemsReturns_returnItem (rs : List PtmpIpcData) (h : ∀ r ∈ rs, textReturn r) :
    itemsReturns (rs.map returnItem) = rs := by
  induction rs with
  | nil => simp [itemsReturns]
  | cons r rs ih =>
    obtain ⟨t, val⟩ := r
    obtain ⟨_, hval⟩ := h _ (List.mem_cons_self _ _)
    obtain ⟨v, hv, _⟩ := isText_eq val hval
    subst hv
    simp only [List.map_cons, returnItem, itemsReturns, fmtV]
    rw [ih (fun q hq => h q (List.mem_cons_of_mem _ hq))]

/-- ReceiveIPCCallResponse with its connection on a response of exact declared
length whose returns have string-like tags. -/
theorem ReceiveIPCCallResponseOn_text (T c : Int) (hT : inIntRange T) (hc : inIntRange c)
    (rs : List PtmpIpcData) (hrs : ∀ r ∈ rs, textReturn r) (tail : List Byte)
    (hL : inIntRange (headerLen T c + ((encodeReturns rs).length : Int)))
    (conn : Conn) (front later : List (List Byte)) (hopen : conn.closed = false)
    (harr : conn.arriving = front ++ later)
    (hfront : joinSegments front
      = response (headerLen T c + ((encodeReturns rs).length : Int)) T c
          (encodeReturns rs ++ tail)) :
    ∃ kept dropped,
      ReceiveIPCCallResponseOn conn
        = .ok ({ CallId := c, Rets := rs }, { conn with arriving := kept ++ later })
      ∧ dropped ++ joinSegments kept = tail := by
  have hw : ∀ it ∈ rs.map returnItem, itemOk it := by
    intro it hit
    obtain ⟨r, hr, e⟩ := List.mem_map.mp hit
    subst e
    exact itemOk_returnItem r (hrs r hr)
  have h := ReceiveIPCCallResponseOn_items T c hT hc (rs.map returnItem) hw tail
    (by rw [itemsBytes_returnItem]; exact hL) conn front later hopen harr
    (by rw [itemsBytes_returnItem]; exact hfront)
  rw [itemsReturns_returnItem rs hrs] at h
  exact h

/-! ## Frames written by the send operations -/

/-- C1: each of the five send operations writes the declared length, the type
code and the body, and the declared length is the byte length of the type
field (its digits and terminator) plus the byte length of the body. -/
theorem send_declares_length :
    (∀ info : PtmpNegotiationInfo,
      declaresLength (SendNegotiationRequest info) PTMP_TYPE_NEGOTIATION_REQUEST
        (negotiationString info ++ [NUL]))
    ∧ (∀ info : PtmpAuthenticationRequestInfo,
      declaresLength (SendAuthenticationRequest info) PTMP_TYPE_AUTHENTICATION_REQUEST
        (info.Username ++ [NUL]))
    ∧ (∀ info : PtmpAuthenticationResponseInfo,
      declaresLength (SendAuthenticationResponse info) PTMP_TYPE_AUTHENTICATION_RESPONSE
        (info.Username ++ [NUL] ++ info.Digest ++ [NUL] ++ info.Custom ++ [NUL]))
    ∧ (∀ reason : List Byte,
      declaresLength (Disconnect reason) PTMP_TYPE_DISCONNECT (reason ++ [NUL]))
    ∧ (∀ info : PtmpIpcCallInfo,
      declaresLength (SendIPCCall info) 100 (ipCallStr info)) := by
  refine ⟨?_, ?_, ?_, ?_, ?_⟩ <;> intro x
  · simp [declaresLength, SendNegotiationRequest, add_assoc]
  · simp [declaresLength, SendAuthenticationRequest, add_assoc]
  · simp [declaresLength, SendAuthenticationResponse, add_assoc]
  · simp [declaresLength, Disconnect, add_assoc]
  · simp [declaresLength, SendIPCCall, add_assoc]

/-! ## Negotiation round trip -/

/-- C2 (amended): for an info whose string fields hold no NUL byte,
ReceiveNegotiationResponse on the bytes of SendNegotiationRequest returns the
info with nine fields unchanged and the application id wrapped in braces; the
one extra terminator of the frame is left unread. -/
theorem negotiation_decode_encode (info : PtmpNegotiationInfo)
    (hId : NUL ∉ info.Identifier) (hApp : NUL ∉ info.AppId)
    (hTs : NUL ∉ info.Timestamp) (hRes : NUL ∉ info.Reserved)
    (hVer : inIntRange info.Version) (hEnc : inIntRange info.Encoding)
    (hEcr : inIntRange info.Encryption) (hCmp : inIntRange info.Compression)
    (hAut : inIntRange info.Authentication) (hKa : inIntRange info.KeepAlivePeriod)
    (hLen : (negotiationString info).length < 2 ^ 62) :
    ReceiveNegotiationResponse (SendNegotiationRequest info)
      = .ok ({ info with AppId := [123] ++ info.AppId ++ [125] }, [NUL]) := by
  have hsend : SendNegotiationRequest info
      = fmtInt (((fmtInt PTMP_TYPE_NEGOTIATION_REQUEST ++ [NUL]).length : Int)
          + ((negotiationString info ++ [NUL]).length : Int)) ++ NUL ::
        (fmtInt PTMP_TYPE_NEGOTIATION_REQUEST ++ NUL ::
        (info.Identifier ++ NUL :: (fmtInt info.Version ++ NUL ::
        (([123] ++ info.AppId ++ [125]) ++ NUL :: (fmtInt info.Encoding ++ NUL ::
        (fmtInt info.Encryption ++ NUL :: (fmtInt info.Compression ++ NUL ::
        (fmtInt info.Authentication ++ NUL :: (info.Timestamp ++ NUL ::
        (fmtInt info.KeepAlivePeriod ++ NUL :: (info.Reserved ++ NUL :: [NUL]))))))))))) := by
    simp [SendNegotiationRequest, negotiationString]
  have hL : inIntRange (((fmtInt PTMP_TYPE_NEGOTIATION_REQUEST ++ [NUL]).length : Int)
      + ((negotiationString info ++ [NUL]).length : Int)) := by
    have h0 : (fmtInt PTMP_TYPE_NEGOTIATION_REQUEST ++ [NUL]).length = 2 := by decide
    rw [h0]
    simp only [inIntRange, List.length_append, List.length_singleton]
    push_cast
    constructor <;> omega
  have hT : inIntRange PTMP_TYPE_NEGOTIATION_REQUEST := by decide
  have hBr : NUL ∉ [123] ++ info.AppId ++ [125] := by
    intro h
    simp only [List.mem_append, List.mem_singleton] at h
    rcases h with (h | h) | h
    · exact absurd h (by decide)
    · exact hApp h
    · exact absurd h (by decide)
  rw [hsend]
  simp only [ReceiveNegotiationResponse, bind, Except.bind, pure, Except.pure,
    readInt_field _ _ hL, readInt_field _ _ hT, readStr_field _ _ hId,
    readInt_field _ _ hVer, readStr_field _ _ hBr, readInt_field _ _ hEnc,
    readInt_field _ _ hEcr, readInt_field _ _ hCmp, readInt_field _ _ hAut,
    readStr_field _ _ hTs, readInt_field _ _ hKa, readStr_field _ _ hRes]

/-- C2 (witness): the amended round trip at the sample negotiation info. -/
theorem negotiation_decode_encode_witness :
    NUL ∉ sampleNegotiation.AppId
    ∧ ReceiveNegotiationResponse (SendNegotiationRequest sampleNegotiation)
      = .ok ({ sampleNegotiation with AppId := [123] ++ sampleNegotiation.AppId ++ [125] },
          [NUL]) :=
  ⟨by decide,
   negotiation_decode_encode sampleNegotiation (by decide) (by decide) (by decide) (by decide)
    (by decide) (by decide) (by decide) (by decide) (by decide) (by decide) (by decide)⟩

/-- C2 (counterexample): the sample negotiation info has NUL-free string
fields, yet decoding its encoding does not give it back: the application id
`X` comes back as `{X}`. -/
theorem negotiation_roundtrip_changes_appId :
    (NUL ∉ sampleNegotiation.Identifier ∧ NUL ∉ sampleNegotiation.AppId
      ∧ NUL ∉ sampleNegotiation.Timestamp ∧ NUL ∉ sampleNegotiation.Reserved)
    ∧ ReceiveNegotiationResponse (SendNegotiationRequest sampleNegotiation)
      = .ok ({ sampleNegotiation with AppId := ascii "{X}" }, [NUL])
    ∧ ∀ rest, ReceiveNegotiationResponse (SendNegotiationRequest sampleNegotiation)
      ≠ .ok (sampleNegotiation, rest) := by
  have h : ReceiveNegotiationResponse (SendNegotiationRequest sampleNegotiation)
      = .ok ({ sampleNegotiation with AppId := ascii "{X}" }, [NUL]) := by decide
  refine ⟨by decide, h, ?_⟩
  intro rest hr
  rw [h] at hr
  have h2 : ascii "{X}" = sampleNegotiation.AppId := by
    injection hr with hr
    injection hr with hr _
    exact congrArg PtmpNegotiationInfo.AppId hr
  exact absurd h2 (by decide)

/-! ## The body of an IPC call -/

/-- C3: with no arguments, the body SendIPCCall builds is the call id in
decimal, then every segment of the call name followed by one marker field,
each field terminated: 2n+1 fields for n segments, n at least 1; when the call
name holds no NUL byte these are the terminated fields of the body. -/
theorem ipCall_noArgs_fields (callId : Int) (callName : List Byte) :
    1 ≤ (Split 46 callName).length
    ∧ ipCallStr { CallId := callId, CallName := callName, Args := [] }
      = joinFields (fmtInt callId :: markedSegments (Split 46 callName))
    ∧ (fmtInt callId :: markedSegments (Split 46 callName)).length
      = 2 * (Split 46 callName).length + 1
    ∧ (NUL ∉ callName →
        fieldsOf (ipCallStr { CallId := callId, CallName := callName, Args := [] })
          = fmtInt callId :: markedSegments (Split 46 callName)) := by
  have hne := Split_ne_nil 46 callName
  have hbody : ipCallStr { CallId := callId, CallName := callName, Args := [] }
      = joinFields (fmtInt callId :: markedSegments (Split 46 callName)) := by
    rw [ipCallStr_eq, ← intersperse_marker_append _ hne]
    simp [argFields]
  refine ⟨?_, hbody, ?_, ?_⟩
  · cases h : Split 46 callName with
    | nil => exact absurd h hne
    | cons a b => simp
  · simp [markedSegments_length]
  · intro hnul
    rw [hbody]
    apply fieldsOf_joinFields
    intro f hf
    simp only [List.mem_cons] at hf
    rcases hf with hf | hf
    · subst hf; exact NUL_not_mem_fmtInt callId
    · rcases mem_markedSegments _ f hf with h | h
      · exact fun hm => hnul (mem_of_mem_Split 46 callName f h NUL hm)
      · subst h; decide

/-- C3 (witness): the three call names of the claim. -/
theorem ipCall_noArgs_fields_witness :
    fieldsOf (ipCallStr { CallId := 7, CallName := ascii "a.b.c", Args := [] })
      = [ascii "7", ascii "a", ascii " 0 ", ascii "b", ascii " 0 ", ascii "c", ascii " 0 "]
    ∧ fieldsOf (ipCallStr { CallId := 7, CallName := ascii "getVersion", Args := [] })
      = [ascii "7", ascii "getVersion", ascii " 0 "]
    ∧ fieldsOf (ipCallStr { CallId := 1, CallName := ascii "appWindow.getVersion", Args := [] })
      = [ascii "1", ascii "appWindow", ascii " 0 ", ascii "getVersion", ascii " 0 "] :=
  ⟨((ipCall_noArgs_fields 7 (ascii "a.b.c")).2.2.2 (by decide)).trans (by decide),
   ((ipCall_noArgs_fields 7 (ascii "getVersion")).2.2.2 (by decide)).trans (by decide),
   ((ipCall_noArgs_fields 1 (ascii "appWindow.getVersion")).2.2.2 (by decide)).trans
     (by decide)⟩

/-- C4: the body SendIPCCall builds is the call id field, the segments of the
call name with one marker field between consecutive segments, then for each
argument in order its type id in decimal and its value as one text field (a
string verbatim, an integer in decimal, a boolean as true or false), then one
marker field; every field is terminated and no marker stands before, between
or inside the argument fields. -/
theorem ipCall_body_fields (info : PtmpIpcCallInfo) :
    ipCallStr info = joinFields ([fmtInt info.CallId]
      ++ (Split 46 info.CallName).intersperse marker ++ argFields info.Args ++ [marker])
    ∧ (∀ (t : Int) (v : GoValue) (rest : List PtmpIpcData),
        argFields ({ TypeId := t, Value := v } :: rest)
          = fmtInt t :: fmtV v :: argFields rest)
    ∧ argFields [] = []
    ∧ (∀ s, fmtV (.str s) = s) ∧ (∀ i, fmtV (.int i) = fmtInt i)
    ∧ fmtV (.bool true) = ascii "true" ∧ fmtV (.bool false) = ascii "false" :=
  ⟨ipCallStr_eq info, fun _ _ _ => rfl, rfl, fun _ => rfl, fun _ => rfl, rfl, rfl⟩

/-! ## Responses to IPC calls -/

/-- C6 (the code at the failing inputs): a return with the numeric tag INT is
not decoded: its value field is read as a further type tag and no return is
recorded; with the tag BOOL and the value text `true` the operation is fatal. -/
theorem numeric_return_not_decoded :
    intReturnStream = ascii "10" ++ [NUL] ++ ascii "100" ++ [NUL] ++ ascii "1" ++ [NUL]
      ++ ascii "4" ++ [NUL] ++ ascii "7" ++ [NUL]
    ∧ ReceiveIPCCallResponse intReturnStream = .ok ({ CallId := 1, Rets := [] }, [])
    ∧ boolReturnStream = ascii "13" ++ [NUL] ++ ascii "100" ++ [NUL] ++ ascii "1" ++ [NUL]
      ++ ascii "2" ++ [NUL] ++ ascii "true" ++ [NUL]
    ∧ ReceiveIPCCallResponse boolReturnStream = .error .parse := by
  decide

/-- C7 (amended): when the bytes arriving start with a response whose declared
length is exact, whose type and call id fields are canonical decimal and whose
returns have string-like tags and NUL-free values, ReceiveIPCCallResponse
returns these returns after its reader has delivered exactly the declared
number of bytes after the length field: it decodes nothing after the frame.
On the connection, when the response and the bytes `rest` after it arrive in
the segments `front` and the segments `later` follow, all of `later` is left;
of `rest` only a final part is left: the bytes its reader has taken into its
buffer are lost with the reader. -/
theorem wellformed_frame_bounds_read (T c : Int) (rs : List PtmpIpcData)
    (rest : List Byte) (hT : inIntRange T) (hc : inIntRange c)
    (hrs : ∀ r ∈ rs, textReturn r)
    (hL : inIntRange (headerLen T c + ((encodeReturns rs).length : Int))) :
    ReceiveIPCCallResponse
        (response (headerLen T c + ((encodeReturns rs).length : Int)) T c
          (encodeReturns rs ++ rest))
      = .ok ({ CallId := c, Rets := rs }, rest)
    ∧ consumedAfterLength
        (response (headerLen T c + ((encodeReturns rs).length : Int)) T c
          (encodeReturns rs ++ rest)) rest
        (headerLen T c + ((encodeReturns rs).length : Int))
      = headerLen T c + ((encodeReturns rs).length : Int)
    ∧ (∀ (conn : Conn) (front later : List (List Byte)), conn.closed = false →
        conn.arriving = front ++ later →
        joinSegments front
          = response (headerLen T c + ((encodeReturns rs).length : Int)) T c
              (encodeReturns rs ++ rest) →
        ∃ kept dropped,
          ReceiveIPCCallResponseOn conn
            = .ok ({ CallId := c, Rets := rs }, { conn with arriving := kept ++ later })
          ∧ dropped ++ joinSegments kept = rest) := by
  have hpure := ReceiveIPCCallResponse_exact T c hT hc rs hrs rest hL
  refine ⟨hpure, ?_, ?_⟩
  · simp only [consumedAfterLength, response, headerLen, List.length_append,
      List.length_singleton]
    push_cast
    omega
  · intro conn front later hopen harr hfront
    exact ReceiveIPCCallResponseOn_text T c hT hc rs hrs rest hL conn front later hopen
      harr hfront

/-- C7 (witness): two returns in a response of exact declared length 19,
followed by the first byte of a next frame. -/
theorem wellformed_frame_bounds_read_witness :
    headerLen 100 1 + ((encodeReturns twoReturns).length : Int) = 19
    ∧ ReceiveIPCCallResponse
        (response (headerLen 100 1 + ((encodeReturns twoReturns).length : Int)) 100 1
          (encodeReturns twoReturns ++ ascii "9"))
      = .ok ({ CallId := 1, Rets := twoReturns }, ascii "9") :=
  ⟨by decide,
   (wellformed_frame_bounds_read 100 1 twoReturns (ascii "9")
    (by decide) (by decide) (by decide) (by decide)).1⟩

/-- C7 (counterexample): the declared frame of 8 bytes ends after a tag field,
seven more bytes follow it, and ReceiveIPCCallResponse takes 12 bytes after
the length field from its reader: it reads the four bytes `abc` NUL that lie
after the frame; when the stream arrives in one segment, the connection is left
with none of its bytes. -/
theorem read_goes_past_declared_length :
    shortFrameStream = ascii "8" ++ [NUL]
      ++ (ascii "100" ++ [NUL] ++ ascii "1" ++ [NUL] ++ ascii "8" ++ [NUL])
      ++ (ascii "abc" ++ [NUL] ++ ascii "XYZ")
    ∧ (ascii "100" ++ [NUL] ++ ascii "1" ++ [NUL] ++ ascii "8" ++ [NUL]).length = 8
    ∧ ReceiveIPCCallResponse shortFrameStream
      = .ok ({ CallId := 1, Rets := [{ TypeId := STRING, Value := .str (ascii "abc") }] },
          ascii "XYZ")
    ∧ consumedAfterLength shortFrameStream (ascii "XYZ") 8 = 12
    ∧ ReceiveIPCCallResponseOn
        { sent := [], arriving := [shortFrameStream], closed := false }
      = .ok ({ CallId := 1, Rets := [{ TypeId := STRING, Value := .str (ascii "abc") }] },
          { sent := [], arriving := [], closed := false }) := by
  decide

/-- C8 (amended): when decoding the value of a return with a string-like tag
makes the counter reach or exceed the declared length, the loop stops and
ReceiveIPCCallResponse returns normally all the returns decoded, the last one
included; an overrun is not an error. -/
theorem overrun_returns_normally (L T c : Int) (init : List PtmpIpcData)
    (last : PtmpIpcData) (rest : List Byte) (hL : inIntRange L) (hT : inIntRange T)
    (hc : inIntRange c) (hinit : ∀ r ∈ init, textReturn r) (hlast : textReturn last)
    (hbelow : headerLen T c + ((encodeReturns init).length : Int) < L)
    (hreach : L ≤ headerLen T c + ((encodeReturns (init ++ [last])).length : Int)) :
    ReceiveIPCCallResponse (response L T c (encodeReturns (init ++ [last]) ++ rest))
      = .ok ({ CallId := c, Rets := init ++ [last] }, rest) := by
  apply ReceiveIPCCallResponse_text_returns L T c hL hT hc _ _ rest _ hreach
  · intro r hr
    simp only [List.mem_append, List.mem_singleton] at hr
    rcases hr with hr | hr
    · exact hinit r hr
    · subst hr; exact hlast
  · intro i hi
    simp only [List.length_append, List.length_singleton] at hi
    have ht : (init ++ [last]).take i = init.take i := by
      rw [List.take_append_of_le_length (by omega)]
    rw [ht]
    have := encodeReturns_take_le init i
    omega

/-- C8 (witness): the declared length 10 is passed by a return that ends at
byte 14. -/
theorem overrun_returns_normally_witness :
    headerLen 100 1 + ((encodeReturns
        ([] ++ [{ TypeId := QSTRING, Value := .str (ascii "hello") }])).length : Int) = 14
    ∧ ReceiveIPCCallResponse (response 10 100 1
        (encodeReturns ([] ++ [{ TypeId := QSTRING, Value := .str (ascii "hello") }])
          ++ ascii "5"))
      = .ok ({ CallId := 1,
               Rets := [] ++ [{ TypeId := QSTRING, Value := .str (ascii "hello") }] },
          ascii "5") :=
  ⟨by decide,
   overrun_returns_normally 10 100 1 [] { TypeId := QSTRING, Value := .str (ascii "hello") }
    (ascii "5") (by decide) (by decide) (by decide) (by decide) (by decide) (by decide)
    (by decide)⟩

/-- C8 (counterexample): the counter goes from 6 to 14, past the declared
length 10, and ReceiveIPCCallResponse returns a result, not an error. -/
theorem overrun_is_not_an_error :
    overrunStream = ascii "10" ++ [NUL] ++ ascii "100" ++ [NUL] ++ ascii "1" ++ [NUL]
      ++ ascii "9" ++ [NUL] ++ ascii "hello" ++ [NUL]
    ∧ headerLen 100 1 = 6
    ∧ headerLen 100 1 + ((ascii "9" ++ [NUL]).length : Int)
        + ((ascii "hello" ++ [NUL]).length : Int) = 14
    ∧ ReceiveIPCCallResponse overrunStream
      = .ok ({ CallId := 1, Rets := [{ TypeId := QSTRING, Value := .str (ascii "hello") }] },
          []) := by
  decide

/-- C9: whenever the loop of ReceiveIPCCallResponse, with the counter below
the declared length, reads a type tag field whose value is PAIR or DATA, the
operation is fatal: no response is returned and nothing after the tag is
decoded.  This holds in every state of the loop, and so for a response in which
the tag follows any returns with string-like tags. -/
theorem unsupported_tag_is_fatal (field tail : List Byte) (tag : Int)
    (hf : NUL ∉ field) (hA : Atoi field = some tag) (htag : tag = PAIR ∨ tag = DATA) :
    (∀ (msgLen : Int) (fuel : Nat) (currLen : Int) (rets : List PtmpIpcData),
      currLen < msgLen →
        recvLoop msgLen (fuel + 1) currLen rets (field ++ NUL :: tail) = .error .unsupported)
    ∧ (∀ (L T c : Int) (rs : List PtmpIpcData), inIntRange L → inIntRange T →
        inIntRange c → (∀ r ∈ rs, textReturn r) →
        headerLen T c + ((encodeReturns rs).length : Int) < L →
        ReceiveIPCCallResponse (response L T c (encodeReturns rs ++ (field ++ NUL :: tail)))
          = .error .unsupported) := by
  constructor
  · intro msgLen fuel currLen rets h
    exact recvLoop_unsupported msgLen fuel currLen rets field tail tag h hf hA htag
  · intro L T c rs hL hT hc hrs h
    obtain ⟨fuel, hfuel⟩ := ReceiveIPCCallResponse_text_prefix L T c hL hT hc rs hrs
      (field ++ NUL :: tail) (fun i _ => by
        have := encodeReturns_take_le rs i
        omega)
    rw [hfuel, recvLoop_unsupported L fuel _ rs field tail tag h hf hA htag]

/-- C9 (witness): a DATA tag after one decoded return, and a PAIR tag written
with a sign, in a response of declared length 40. -/
theorem unsupported_tag_is_fatal_witness :
    ReceiveIPCCallResponse (response 40 100 1
        (encodeReturns [{ TypeId := STRING, Value := .str (ascii "ab") }]
          ++ (ascii "16" ++ NUL :: ascii "xyz")))
      = .error .unsupported
    ∧ ReceiveIPCCallResponse (response 40 100 1
        (encodeReturns [] ++ (ascii "+14" ++ NUL :: (ascii "8" ++ [NUL] ++ ascii "v" ++ [NUL]))))
      = .error .unsupported :=
  ⟨(unsupported_tag_is_fatal (ascii "16") (ascii "xyz") DATA (by decide) (by decide)
      (by decide)).2 40 100 1 [{ TypeId := STRING, Value := .str (ascii "ab") }]
      (by decide) (by decide) (by decide) (by decide) (by decide),
   (unsupported_tag_is_fatal (ascii "+14") (ascii "8" ++ [NUL] ++ ascii "v" ++ [NUL]) PAIR
      (by decide) (by decide) (by decide)).2 40 100 1 []
      (by decide) (by decide) (by decide) (by decide) (by decide)⟩

/-- C10 (amended): when the stream ends where the loop reads a type tag, at the
boundary or inside the tag field, with the counter below the declared length,
ReceiveIPCCallResponse returns without error the call id and the returns
decoded so far; when the stream ends inside the value field of a string-like
tag or inside a field of the header of a vector (its length, its element
type), the operation is fatal. -/
theorem eof_at_tag_returns (part : List Byte) (hp : NUL ∉ part) :
    (∀ (msgLen : Int) (fuel : Nat) (currLen : Int) (rets : List PtmpIpcData),
      currLen < msgLen → recvLoop msgLen (fuel + 1) currLen rets part = .ok (rets, []))
    ∧ (∀ (L T c : Int) (rs : List PtmpIpcData), inIntRange L → inIntRange T →
        inIntRange c → (∀ r ∈ rs, textReturn r) →
        headerLen T c + ((encodeReturns rs).length : Int) < L →
        ReceiveIPCCallResponse (response L T c (encodeReturns rs ++ part))
          = .ok ({ CallId := c, Rets := rs }, []))
    ∧ (∀ (L T c : Int) (rs : List PtmpIpcData) (tag : Int), inIntRange L → inIntRange T →
        inIntRange c → (∀ r ∈ rs, textReturn r) → stringLike tag →
        headerLen T c + ((encodeReturns rs).length : Int) < L →
        ReceiveIPCCallResponse
            (response L T c (encodeReturns rs ++ (fmtInt tag ++ NUL :: part)))
          = .error .read)
    ∧ (∀ (L T c : Int) (rs : List PtmpIpcData), inIntRange L → inIntRange T →
        inIntRange c → (∀ r ∈ rs, textReturn r) →
        headerLen T c + ((encodeReturns rs).length : Int) < L →
        ReceiveIPCCallResponse
            (response L T c (encodeReturns rs ++ (fmtInt VECTOR ++ NUL :: part)))
          = .error .read)
    ∧ (∀ (L T c : Int) (rs : List PtmpIpcData) (n : Int), inIntRange L → inIntRange T →
        inIntRange c → (∀ r ∈ rs, textReturn r) → inIntRange n →
        headerLen T c + ((encodeReturns rs).length : Int) < L →
        ReceiveIPCCallResponse
            (response L T c
              (encodeReturns rs ++ (fmtInt VECTOR ++ NUL :: (fmtInt n ++ NUL :: part))))
          = .error .read) := by
  refine ⟨?_, ?_, ?_, ?_, ?_⟩
  · intro msgLen fuel currLen rets h
    exact recvLoop_eof msgLen fuel currLen rets part h hp
  · intro L T c rs hL hT hc hrs h
    obtain ⟨fuel, hfuel⟩ := ReceiveIPCCallResponse_text_prefix L T c hL hT hc rs hrs part
      (fun i _ => by
        have := encodeReturns_take_le rs i
        omega)
    rw [hfuel, recvLoop_eof L fuel _ rs part h hp]
  · intro L T c rs tag hL hT hc hrs htag h
    obtain ⟨fuel, hfuel⟩ := ReceiveIPCCallResponse_text_prefix L T c hL hT hc rs hrs
      (fmtInt tag ++ NUL :: part) (fun i _ => by
        have := encodeReturns_take_le rs i
        omega)
    rw [hfuel, recvLoop_value_eof L fuel _ rs tag part h htag hp]
  · intro L T c rs hL hT hc hrs h
    obtain ⟨fuel, hfuel⟩ := ReceiveIPCCallResponse_text_prefix L T c hL hT hc rs hrs
      (fmtInt VECTOR ++ NUL :: part) (fun i _ => by
        have := encodeReturns_take_le rs i
        omega)
    rw [hfuel, recvLoop_vector_eof L fuel _ rs part h hp]
  · intro L T c rs n hL hT hc hrs hn h
    obtain ⟨fuel, hfuel⟩ := ReceiveIPCCallResponse_text_prefix L T c hL hT hc rs hrs
      (fmtInt VECTOR ++ NUL :: (fmtInt n ++ NUL :: part)) (fun i _ => by
        have := encodeReturns_take_le rs i
        omega)
    rw [hfuel, recvLoop_vector_type_eof L fuel _ rs n part h hn hp]

/-- C10 (witness): a response of declared length 30 that ends after one return,
and one that ends inside the next type tag field. -/
theorem eof_at_tag_returns_witness :
    ReceiveIPCCallResponse (response 30 100 1
        (encodeReturns [{ TypeId := STRING, Value := .str (ascii "ab") }] ++ []))
      = .ok ({ CallId := 1, Rets := [{ TypeId := STRING, Value := .str (ascii "ab") }] }, [])
    ∧ ReceiveIPCCallResponse (response 30 100 1
        (encodeReturns [{ TypeId := STRING, Value := .str (ascii "ab") }] ++ ascii "1"))
      = .ok ({ CallId := 1, Rets := [{ TypeId := STRING, Value := .str (ascii "ab") }] }, []) :=
  ⟨(eof_at_tag_returns [] (by decide)).2.1 30 100 1
      [{ TypeId := STRING, Value := .str (ascii "ab") }]
      (by decide) (by decide) (by decide) (by decide) (by decide),
   (eof_at_tag_returns (ascii "1") (by decide)).2.1 30 100 1
      [{ TypeId := STRING, Value := .str (ascii "ab") }]
      (by decide) (by decide) (by decide) (by decide) (by decide)⟩

/-- C10 (counterexample): the stream ends inside the value field of a STRING
return while the counter, 6, is below the declared length 20, and
ReceiveIPCCallResponse is fatal instead of returning the call id. -/
theorem eof_inside_value_is_fatal :
    truncatedValueStream = ascii "20" ++ [NUL] ++ ascii "100" ++ [NUL] ++ ascii "1" ++ [NUL]
      ++ ascii "8" ++ [NUL] ++ ascii "abc"
    ∧ headerLen 100 1 = 6
    ∧ ReceiveIPCCallResponse truncatedValueStream = .error .read := by
  decide

/-! ## Field readers and the authentication replies -/

/-- C11: readBool on a stream whose next byte is the terminator returns false
and takes that one byte only; so ReceiveAuthenticationStatus on a frame whose
status field is empty returns the status false. -/
theorem readBool_empty_field (L T : Int) (rest : List Byte) (hL : inIntRange L)
    (hT : inIntRange T) :
    readBool (NUL :: rest) = .ok (false, rest)
    ∧ ((NUL :: rest).length - rest.length = 1)
    ∧ ReceiveAuthenticationStatus (fmtInt L ++ [NUL] ++ (fmtInt T ++ [NUL] ++ (NUL :: rest)))
      = .ok ({ Status := false }, rest) := by
  have hb : readBool (NUL :: rest) = .ok (false, rest) := by
    have := readBool_field [] rest (by simp)
    simpa using this
  refine ⟨hb, by simp, ?_⟩
  simp only [ReceiveAuthenticationStatus, List.append_assoc, List.singleton_append,
    bind, Except.bind, pure, Except.pure, readInt_field _ _ hL, readInt_field _ _ hT, hb]

/-- C11 (witness): a status frame of declared length 3 and type 5 with an empty
status field, followed by one more byte. -/
theorem readBool_empty_field_witness :
    ReceiveAuthenticationStatus
        (ascii "3" ++ [NUL] ++ (ascii "5" ++ [NUL] ++ (NUL :: ascii "x")))
      = .ok ({ Status := false }, ascii "x") :=
  (readBool_empty_field 3 5 (ascii "x") (by decide) (by decide)).2.2

/-- C13: on a stream that is a NUL-free text `p`, the terminator and `rest`,
readStr returns `p` and leaves exactly `rest` unread, so it takes the bytes
of `p` and one more; on a stream without terminator it fails.  So
ReceiveAuthenticationChallenge on a frame whose body is a NUL-free challenge
and its terminator returns that challenge. -/
theorem readStr_returns_field (p rest : List Byte) (hp : NUL ∉ p) :
    readStr (p ++ [NUL] ++ rest) = .ok (p, rest)
    ∧ (p ++ [NUL] ++ rest).length - rest.length = p.length + 1
    ∧ readStr p = .error .read
    ∧ (∀ L T : Int, inIntRange L → inIntRange T →
        ReceiveAuthenticationChallenge (fmtInt L ++ [NUL] ++ (fmtInt T ++ [NUL] ++ (p ++ [NUL] ++ rest)))
          = .ok ({ Challenge := p }, rest)) := by
  have h1 : readStr (p ++ [NUL] ++ rest) = .ok (p, rest) := by
    have := readStr_field p rest hp
    simpa using this
  refine ⟨h1, by simp only [List.length_append, List.length_singleton]; omega,
    readStr_eof p hp, ?_⟩
  intro L T hL hT
  simp only [ReceiveAuthenticationChallenge, List.append_assoc, List.singleton_append,
    bind, Except.bind, pure, Except.pure, readInt_field _ _ hL, readInt_field _ _ hT,
    readStr_field _ _ hp]

/-- C13 (witness): the challenge `abc123` in a frame of declared length 9 and
type 3. -/
theorem readStr_returns_field_witness :
    ReceiveAuthenticationChallenge
        (ascii "9" ++ [NUL] ++ (ascii "3" ++ [NUL] ++ (ascii "abc123" ++ [NUL] ++ [])))
      = .ok ({ Challenge := ascii "abc123" }, [])
    ∧ readStr (ascii "abc123") = .error .read :=
  ⟨(readStr_returns_field (ascii "abc123") [] (by decide)).2.2.2 9 3 (by decide) (by decide),
   (readStr_returns_field (ascii "abc123") [] (by decide)).2.2.1⟩

/-- C14: the type field of the frame each send operation writes is the
message type code of the operation, whatever the input: 0 for the negotiation
request, 2 for the authentication request, 4 for the authentication response,
7 for the disconnect message and 100 for an IPC call. -/
theorem send_type_codes :
    (∀ info, typeFieldOf (SendNegotiationRequest info) = ascii "0")
    ∧ (∀ info, typeFieldOf (SendAuthenticationRequest info) = ascii "2")
    ∧ (∀ info, typeFieldOf (SendAuthenticationResponse info) = ascii "4")
    ∧ (∀ reason, typeFieldOf (Disconnect reason) = ascii "7")
    ∧ (∀ info, typeFieldOf (SendIPCCall info) = ascii "100") := by
  have key : ∀ (L T : Int) (body : List Byte),
      typeFieldOf (fmtInt L ++ [NUL] ++ (fmtInt T ++ [NUL]) ++ body) = fmtInt T := by
    intro L T body
    have e : fmtInt L ++ [NUL] ++ (fmtInt T ++ [NUL]) ++ body
        = fmtInt L ++ NUL :: (fmtInt T ++ NUL :: body) := by simp
    rw [e]
    simp only [typeFieldOf, ReadString_field _ _ (NUL_not_mem_fmtInt L),
      ReadString_field _ _ (NUL_not_mem_fmtInt T), List.dropLast_concat]
  refine ⟨?_, ?_, ?_, ?_, ?_⟩ <;> intro x
  · exact (key _ PTMP_TYPE_NEGOTIATION_REQUEST _).trans (by decide)
  · exact (key _ PTMP_TYPE_AUTHENTICATION_REQUEST _).trans (by decide)
  · exact (key _ PTMP_TYPE_AUTHENTICATION_RESPONSE _).trans (by decide)
  · exact (key _ PTMP_TYPE_DISCONNECT _).trans (by decide)
  · exact (key _ 100 _).trans (by decide)

/-- C15 (amended): readBool parses the field with strconv.ParseBool: for a
NUL-free field it returns true on 1, t, T, TRUE, true, True, false on 0, f, F,
FALSE, false, False and on the empty field, and is fatal on every other text;
ReceiveAuthenticationStatus returns the same as its status. -/
theorem readBool_parses_field (f rest : List Byte) (hf : NUL ∉ f) :
    (f ∈ trueTexts → readBool (f ++ [NUL] ++ rest) = .ok (true, rest))
    ∧ (f ∈ falseTexts ∨ f = [] → readBool (f ++ [NUL] ++ rest) = .ok (false, rest))
    ∧ (f ∉ trueTexts → f ∉ falseTexts → f ≠ [] →
        readBool (f ++ [NUL] ++ rest) = .error .parse)
    ∧ (∀ L T : Int, inIntRange L → inIntRange T →
        ReceiveAuthenticationStatus (fmtInt L ++ [NUL] ++ (fmtInt T ++ [NUL] ++ (f ++ [NUL] ++ rest)))
          = match readBool (f ++ [NUL] ++ rest) with
            | .ok (status, unread) => .ok ({ Status := status }, unread)
            | .error e => .error e) := by
  have hb := readBool_field f rest hf
  have e : f ++ [NUL] ++ rest = f ++ NUL :: rest := by simp
  rw [e]
  refine ⟨?_, ?_, ?_, ?_⟩
  · intro h
    have hne : f ≠ [] := by
      intro h0; subst h0; exact absurd h (by decide)
    rw [hb, if_neg hne, ParseBool_true f h]
  · intro h
    rcases h with h | h
    · have hne : f ≠ [] := by
        intro h0; subst h0; exact absurd h (by decide)
      rw [hb, if_neg hne, ParseBool_false f h]
    · rw [hb, if_pos h]
  · intro ht hfl hne
    rw [hb, if_neg hne, ParseBool_none f ht hfl]
  · intro L T hL hT
    simp only [ReceiveAuthenticationStatus, List.append_assoc, List.singleton_append,
      bind, Except.bind, pure, Except.pure, readInt_field _ _ hL, readInt_field _ _ hT]
    cases readBool (f ++ NUL :: rest) with
    | error e => rfl
    | ok v => rfl

/-- C15 (witness): the fields `true`, `false` and `yes`. -/
theorem readBool_parses_field_witness :
    readBool (ascii "true" ++ [NUL] ++ []) = .ok (true, [])
    ∧ readBool (ascii "false" ++ [NUL] ++ []) = .ok (false, [])
    ∧ readBool (ascii "yes" ++ [NUL] ++ []) = .error .parse :=
  ⟨(readBool_parses_field (ascii "true") [] (by decide)).1 (by decide),
   (readBool_parses_field (ascii "false") [] (by decide)).2.1 (Or.inl (by decide)),
   (readBool_parses_field (ascii "yes") [] (by decide)).2.2.1 (by decide) (by decide)
     (by decide)⟩

/-- C15 (counterexample): the fields `1` and `F` are neither `true` nor `false`
nor empty, and readBool does not fail on them: it returns true and false; so
does ReceiveAuthenticationStatus. -/
theorem readBool_accepts_other_texts :
    readBool (ascii "1" ++ [NUL]) = .ok (true, [])
    ∧ readBool (ascii "F" ++ [NUL]) = .ok (false, [])
    ∧ ReceiveAuthenticationStatus (ascii "4" ++ [NUL] ++ ascii "5" ++ [NUL] ++ ascii "1" ++ [NUL])
      = .ok ({ Status := true }, []) := by
  decide

/-- C16: the frame SendNegotiationRequest writes has the body Identifier,
Version, the AppId in braces, Encoding, Encryption, Compression,
Authentication, Timestamp, KeepAlivePeriod, Reserved, each followed by its
terminator, the integers in decimal, and then one more NUL byte; the declared
length counts the two bytes of the type field and this whole body, the extra
NUL included. -/
theorem negotiation_request_body (info : PtmpNegotiationInfo) :
    SendNegotiationRequest info
      = fmtInt (2 + ((joinFields [info.Identifier, fmtInt info.Version,
            [123] ++ info.AppId ++ [125], fmtInt info.Encoding, fmtInt info.Encryption,
            fmtInt info.Compression, fmtInt info.Authentication, info.Timestamp,
            fmtInt info.KeepAlivePeriod, info.Reserved] ++ [NUL]).length : Int))
        ++ [NUL] ++ ascii "0" ++ [NUL]
        ++ (joinFields [info.Identifier, fmtInt info.Version,
            [123] ++ info.AppId ++ [125], fmtInt info.Encoding, fmtInt info.Encryption,
            fmtInt info.Compression, fmtInt info.Authentication, info.Timestamp,
            fmtInt info.KeepAlivePeriod, info.Reserved] ++ [NUL])
    ∧ (joinFields [info.Identifier, fmtInt info.Version,
            [123] ++ info.AppId ++ [125], fmtInt info.Encoding, fmtInt info.Encryption,
            fmtInt info.Compression, fmtInt info.Authentication, info.Timestamp,
            fmtInt info.KeepAlivePeriod, info.Reserved] ++ [NUL]).length
      = info.Identifier.length + (fmtInt info.Version).length + (info.AppId.length + 2)
        + (fmtInt info.Encoding).length + (fmtInt info.Encryption).length
        + (fmtInt info.Compression).length + (fmtInt info.Authentication).length
        + info.Timestamp.length + (fmtInt info.KeepAlivePeriod).length
        + info.Reserved.length + 10 + 1 := by
  have h0 : fmtInt PTMP_TYPE_NEGOTIATION_REQUEST = ascii "0" := by decide
  have hz : ascii "0" = [(48 : Byte)] := by decide
  constructor
  · simp only [SendNegotiationRequest, negotiationString, joinFields, h0, hz]
    simp [add_assoc]
  · simp only [joinFields, List.length_append, List.length_singleton, List.length_cons,
      List.length_nil]
    omega

/-! ## The order of operations -/

/-- C12 (amended): SendIPCCall looks at no session state.  On every connection
that has not been closed, whatever was sent or has arrived on it and whether or
not the authentication steps were performed, it writes the frame of the call,
which is never empty, and does not fail; on a closed connection the write
fails. -/
theorem ipcCall_sent_on_open_connection (conn : Conn) (info : PtmpIpcCallInfo)
    (hopen : conn.closed = false) :
    SendIPCCallOn conn info = .ok { conn with sent := conn.sent ++ SendIPCCall info }
    ∧ SendIPCCall info ≠ []
    ∧ (∀ c : Conn, c.closed = true → SendIPCCallOn c info = .error .write) := by
  refine ⟨?_, SendIPCCall_ne_nil info, ?_⟩
  · simp [SendIPCCallOn, connWrite, hopen]
  · intro c hc
    simp [SendIPCCallOn, connWrite, hc]

/-- C12 (witness): the first call of the handshake example on a connection on
which nothing has been sent and the bytes of a response are arriving. -/
theorem ipcCall_sent_on_open_connection_witness :
    SendIPCCallOn { sent := [], arriving := [exactFrame], closed := false } sampleCall
      = .ok { sent := [] ++ SendIPCCall sampleCall, arriving := [exactFrame],
              closed := false } :=
  (ipcCall_sent_on_open_connection
    { sent := [], arriving := [exactFrame], closed := false } sampleCall (by decide)).1

/-- C12 (counterexample): on a fresh connection on which only the first of the
four authentication steps has been performed, SendIPCCall does not fail and
writes the 38 bytes of its frame. -/
theorem ipcCall_sent_before_authentication :
    SendAuthenticationRequestOn freshConn { Username := ascii "u" }
      = .ok { sent := ascii "4" ++ [NUL] ++ ascii "2" ++ [NUL] ++ ascii "u" ++ [NUL],
              arriving := [], closed := false }
    ∧ SendIPCCallOn
        { sent := ascii "4" ++ [NUL] ++ ascii "2" ++ [NUL] ++ ascii "u" ++ [NUL],
          arriving := [], closed := false } sampleCall
      = .ok { sent := ascii "4" ++ [NUL] ++ ascii "2" ++ [NUL] ++ ascii "u" ++ [NUL]
                ++ (ascii "35" ++ [NUL] ++ ascii "100" ++ [NUL] ++ ascii "1" ++ [NUL]
                  ++ ascii "appWindow" ++ [NUL] ++ ascii " 0 " ++ [NUL]
                  ++ ascii "getVersion" ++ [NUL] ++ ascii " 0 " ++ [NUL]),
              arriving := [], closed := false }
    ∧ (SendIPCCall sampleCall).length = 38 := by
  decide

/-! ## The counter of the decode loop -/

/-- C17 (amended): in ReceiveIPCCallResponse the counter equals the number of
bytes its reader has delivered after the length field at every loop test,
under the provisos of the claim.  It does at the first test when the type and
call id fields are canonical; a pass of the loop that reads a string-like tag,
or the tag VECTOR followed by canonical length and element type fields, keeps
the equality; and so a response of exact declared length made of such returns
and vector headers is decoded to its end and not further: no byte after it is
delivered or decoded.  On the connection, when the response and the bytes
`tail` after it arrive in the segments `front` and the segments `later`
follow, all of `later` is left; of `tail` only a final part is left: the bytes
that the reader has taken into its buffer are lost with it. -/
theorem counter_tracks_bytes_read :
    (∀ (L T c : Int) (body : List Byte), inIntRange L → inIntRange T → inIntRange c →
      ReceiveIPCCallResponse (response L T c body)
        = (match recvLoop L (body.length + 1) (headerLen T c) [] body with
          | .error e => .error e
          | .ok (rets, rest) => .ok ({ CallId := c, Rets := rets }, rest))
      ∧ headerLen T c
        = ((fmtInt T ++ [NUL] ++ (fmtInt c ++ [NUL] ++ body)).length : Int)
          - (body.length : Int))
    ∧ (∀ (msgLen : Int) (fuel : Nat) (currLen : Int) (rets : List PtmpIpcData)
        (s : List Byte),
      recvLoop msgLen (fuel + 1) currLen rets s
        = match recvStep msgLen { currLen := currLen, rets := rets, unread := s } with
          | .exit r u => .ok (r, u)
          | .fatal f => .error f
          | .next st => recvLoop msgLen fuel st.currLen st.rets st.unread)
    ∧ (∀ (msgLen total : Int) (st st' : LoopState) (tag : Int),
      recvStep msgLen st = .next st' → tagRead st = some tag →
      (stringLike tag ∨ (tag = VECTOR ∧ canonicalField (afterTag st) = true
        ∧ canonicalField (ReadString NUL (afterTag st)).2.2 = true)) →
      st.currLen = total - (st.unread.length : Int) →
      st'.currLen = total - (st'.unread.length : Int))
    ∧ (∀ (T c : Int) (items : List WireItem) (tail : List Byte), inIntRange T →
      inIntRange c → (∀ it ∈ items, itemOk it) →
      inIntRange (headerLen T c + ((itemsBytes items).length : Int)) →
      ReceiveIPCCallResponse
          (response (headerLen T c + ((itemsBytes items).length : Int)) T c
            (itemsBytes items ++ tail))
        = .ok ({ CallId := c, Rets := itemsReturns items }, tail)
      ∧ consumedAfterLength
          (response (headerLen T c + ((itemsBytes items).length : Int)) T c
            (itemsBytes items ++ tail)) tail
          (headerLen T c + ((itemsBytes items).length : Int))
        = headerLen T c + ((itemsBytes items).length : Int)
      ∧ (∀ (conn : Conn) (front later : List (List Byte)), conn.closed = false →
          conn.arriving = front ++ later →
          joinSegments front
            = response (headerLen T c + ((itemsBytes items).length : Int)) T c
                (itemsBytes items ++ tail) →
          ∃ kept dropped,
            ReceiveIPCCallResponseOn conn
              = .ok ({ CallId := c, Rets := itemsReturns items },
                  { conn with arriving := kept ++ later })
            ∧ dropped ++ joinSegments kept = tail)) := by
  refine ⟨?_, recvLoop_succ, ?_, ?_⟩
  · intro L T c body hL hT hc
    refine ⟨ReceiveIPCCallResponse_response L T c hL hT hc body, ?_⟩
    simp only [headerLen, List.length_append, List.length_singleton]
    push_cast
    omega
  · intro msgLen total st st' tag h htag hgood hinv
    have := recvStep_counter msgLen st st' h tag htag hgood
    omega
  · intro T c items tail hT hc hw hL
    have hpure := ReceiveIPCCallResponse_items T c hT hc items hw tail hL
    refine ⟨hpure, ?_, ?_⟩
    · simp only [consumedAfterLength, response, headerLen, List.length_append,
        List.length_singleton]
      push_cast
      omega
    · intro conn front later hopen harr hfront
      exact ReceiveIPCCallResponseOn_items T c hT hc items hw tail hL conn front later hopen
        harr hfront

/-- C17 (witness): a pass on a STRING return whose tag field is written `+8`
keeps the counter equal to the bytes delivered; a response with such a return
and an empty vector header, followed by a byte of a next frame, is decoded to
its end. -/
theorem counter_tracks_bytes_read_witness :
    recvStep 20 signedTagState
      = .next { currLen := 12, rets := [{ TypeId := 8, Value := .str (ascii "ab") }],
                unread := [] }
    ∧ ((12 : Int) = 12 - (([] : List Byte).length : Int))
    ∧ ReceiveIPCCallResponse
        (response (headerLen 100 1 + ((itemsBytes [.text (ascii "+8") 8 (ascii "ab"),
            .vector (ascii "15") 0 4]).length : Int)) 100 1
          (itemsBytes [.text (ascii "+8") 8 (ascii "ab"), .vector (ascii "15") 0 4]
            ++ ascii "9"))
      = .ok ({ CallId := 1, Rets := [{ TypeId := 8, Value := .str (ascii "ab") }] },
          ascii "9") :=
  ⟨by decide,
   counter_tracks_bytes_read.2.2.1 20 12 signedTagState
      { currLen := 12, rets := [{ TypeId := 8, Value := .str (ascii "ab") }], unread := [] } 8
      (by decide) (by decide) (Or.inl (by decide)) (by decide),
   (counter_tracks_bytes_read.2.2.2 100 1
      [.text (ascii "+8") 8 (ascii "ab"), .vector (ascii "15") 0 4] (ascii "9")
      (by decide) (by decide) (by decide) (by decide)).1⟩

/-- C17 (counterexample): a response of exact declared length 12, canonical and
with one STRING return, arrives in one segment with the eight bytes of the
response that follows it.  ReceiveIPCCallResponse returns with its counter at
12, and the connection is left empty: the eight bytes of the following frame
have been taken from the connection with the frame and are lost.  When the two
responses arrive in two segments, the second is left on the connection. -/
theorem following_frame_bytes_lost :
    exactFrame = ascii "12" ++ [NUL] ++ ascii "100" ++ [NUL] ++ ascii "1" ++ [NUL]
      ++ ascii "8" ++ [NUL] ++ ascii "abc" ++ [NUL]
    ∧ headerLen 100 1
        + ((encodeReturns [{ TypeId := STRING, Value := .str (ascii "abc") }]).length : Int)
      = 12
    ∧ followingFrame.length = 8
    ∧ ReceiveIPCCallResponseOn twoFramesConn
      = .ok ({ CallId := 1, Rets := [{ TypeId := STRING, Value := .str (ascii "abc") }] },
          { sent := [], arriving := [], closed := false })
    ∧ ReceiveIPCCallResponseOn twoSegmentsConn
      = .ok ({ CallId := 1, Rets := [{ TypeId := STRING, Value := .str (ascii "abc") }] },
          { sent := [], arriving := [followingFrame], closed := false }) := by
  decide

/-- C18: ReceiveIPCCallResponse halts on every stream.  Its loop is the
repetition of one pass; a pass that comes back to the loop test has read at
least one byte; so with more passes allowed than bytes unread the loop ends by
itself, with a result that does not depend on the number of passes allowed,
and the operation returns or is fatal.  A pass on a numeric tag (1 to 7) or on
a tag outside 1 to 16 reads the tag field and leaves the counter unchanged. -/
theorem decode_loop_halts :
    (∀ s : List Byte, ReceiveIPCCallResponse s ≠ .error .fuel)
    ∧ (∀ (msgLen : Int) (fuel : Nat) (currLen : Int) (rets : List PtmpIpcData)
        (s : List Byte),
      recvLoop msgLen (fuel + 1) currLen rets s
        = match recvStep msgLen { currLen := currLen, rets := rets, unread := s } with
          | .exit r u => .ok (r, u)
          | .fatal f => .error f
          | .next st => recvLoop msgLen fuel st.currLen st.rets st.unread)
    ∧ (∀ (msgLen : Int) (st st' : LoopState),
      recvStep msgLen st = .next st' → st'.unread.length < st.unread.length)
    ∧ (∀ (msgLen : Int) (fuel : Nat) (currLen : Int) (rets : List PtmpIpcData)
        (s : List Byte), s.length < fuel →
      recvLoop msgLen fuel currLen rets s ≠ .error .fuel
      ∧ recvLoop msgLen fuel currLen rets s = recvLoop msgLen (s.length + 1) currLen rets s)
    ∧ (∀ (msgLen : Int) (st : LoopState) (tag : Int), st.currLen < msgLen →
      (ReadString NUL st.unread).2.1 = false → tagRead st = some tag →
      (numericTag tag ∨ tag < 1 ∨ 16 < tag) →
      recvStep msgLen st
        = .next { currLen := st.currLen, rets := st.rets, unread := afterTag st }
      ∧ (afterTag st).length < st.unread.length) := by
  refine ⟨ReceiveIPCCallResponse_ne_fuel, recvLoop_succ, recvStep_decreases, ?_, ?_⟩
  · intro msgLen fuel currLen rets s h
    exact ⟨recvLoop_ne_fuel msgLen fuel currLen rets s h,
      recvLoop_fuel_irrelevant msgLen fuel (s.length + 1) currLen rets s h (by omega)⟩
  · intro msgLen st tag h heof htag hskip
    exact ⟨recvStep_skip msgLen st tag h heof htag hskip,
      ReadString_rest_lt NUL st.unread heof⟩

/-- C18 (witness): a pass on the tag INT with the counter at 6 below the
declared length 10 reads the two bytes of the tag field and leaves the counter
at 6; a pass on the tag 17 does the same. -/
theorem decode_loop_halts_witness :
    recvStep 10 numericTagState
      = .next { currLen := 6, rets := [], unread := ascii "7" ++ [NUL] }
    ∧ recvStep 10 { currLen := 6, rets := [], unread := ascii "17" ++ [NUL] }
      = .next { currLen := 6, rets := [], unread := [] }
    ∧ (ascii "7" ++ [NUL]).length < numericTagState.unread.length :=
  ⟨(decode_loop_halts.2.2.2.2 10 numericTagState 4 (by decide) (by decide) (by decide)
      (Or.inl (by decide))).1,
   (decode_loop_halts.2.2.2.2 10 { currLen := 6, rets := [], unread := ascii "17" ++ [NUL] } 17
      (by decide) (by decide) (by decide) (Or.inr (Or.inr (by decide)))).1,
   decode_loop_halts.2.2.1 10 numericTagState
      { currLen := 6, rets := [], unread := ascii "7" ++ [NUL] } (by decide)⟩

end Gopkt
